import Mathlib

/-!
# Register-access core of the PCA953x GPIO expander driver

A shallow embedding of `gpio-pca953x.c`: the chip structure with its shadow
registers, the single-bank and multi-bank transfer routines, the pin-level
`pca953x_gpio_set_value`, and the three sysfs store functions.

Conventions of the embedding

* `u8`, `u16`, `u32` values are naturals; every conversion to a narrower type
  that the C code performs is written as an explicit `% 2 ^ w`.
* The I2C bus is an external collaborator.  It is a parameter `Bus`: a function
  from the log of everything that happened so far and the transaction being
  issued to the reply of the bus.  Every transaction is appended to the log
  together with its reply, and so are `mutex_lock` / `mutex_unlock`.
* An access outside an array (undefined behaviour in C) makes the embedded
  function return `none`.
-/

namespace PCA953x

/-! ## Constants (lines 26-45, 76-77) -/

def PCA953X_INPUT : Nat := 0
def PCA953X_OUTPUT : Nat := 1
def PCA953X_INVERT : Nat := 2
def PCA953X_DIRECTION : Nat := 3

def REG_ADDR_AI : Nat := 0x80

def PCA957X_IN : Nat := 0
def PCA957X_INVRT : Nat := 1
def PCA957X_BKEN : Nat := 2
def PCA957X_PUPD : Nat := 3
def PCA957X_CFG : Nat := 4
def PCA957X_OUT : Nat := 5
def PCA957X_MSK : Nat := 6
def PCA957X_INTS : Nat := 7

def PCA953X_TYPE : Int := 0x1000
def PCA957X_TYPE : Int := 0x2000

def MAX_BANK : Nat := 5
def BANK_SZ : Nat := 8

/-! ## Data model -/

/-- The fields of `struct pca953x_chip` (lines 81-99) that the register core
uses: `gpio_chip.ngpio`, `chip_type` and the two shadow arrays, each declared
`u8 [MAX_BANK]`. -/
structure pca953x_chip where
  ngpio : Nat
  chip_type : Int
  reg_output : List Nat
  reg_direction : List Nat
deriving DecidableEq, Repr

/-- The macro `NBANK(chip)` of line 79: `chip->gpio_chip.ngpio / BANK_SZ`. -/
def NBANK (chip : pca953x_chip) : Nat := chip.ngpio / BANK_SZ

/-- One SMBus transaction, named after the kernel call that issues it.  The
`command` and `length` arguments are `u8`, `value` is `u8` (byte) or `u16`
(word); `values` are the bytes a block write sends. -/
inductive Txn where
  | write_byte_data (command value : Nat)
  | write_word_data (command value : Nat)
  | write_i2c_block_data (command length : Nat) (values : List Nat)
  | read_byte_data (command : Nat)
  | read_word_data (command : Nat)
  | read_i2c_block_data (command length : Nat)
deriving DecidableEq, Repr

/-- What the bus answers: the `s32` the kernel call returns (negative on
failure) and, for a block read, the bytes it stores in the buffer of the
caller. -/
structure Reply where
  ret : Int
  block : List Nat
deriving DecidableEq, Repr

/-- What an observer of the driver sees, in order. -/
inductive Event where
  | mutex_lock
  | mutex_unlock
  | i2c (t : Txn) (r : Reply)
deriving DecidableEq, Repr

/-- The transport: given the log so far and a transaction, its reply. -/
abbrev Bus : Type := List Event → Txn → Reply

/-- Issue one transaction: ask the bus and append transaction and reply to the
log. -/
def i2c_smbus (bus : Bus) (log : List Event) (t : Txn) : Reply × List Event :=
  (bus log t, log ++ [Event.i2c t (bus log t)])

/-- The kernel bit operation `fls` (find last set bit of a 32-bit word, counted
from 1; `fls(0) = 0`), written as the generic implementation of the kernel. -/
def fls (x0 : Nat) : Nat :=
  let x := x0 % 2 ^ 32
  if x = 0 then 0 else
  let r := 32
  let (x, r) := if x &&& 0xffff0000 = 0 then ((x <<< 16) % 2 ^ 32, r - 16) else (x, r)
  let (x, r) := if x &&& 0xff000000 = 0 then ((x <<< 8) % 2 ^ 32, r - 8) else (x, r)
  let (x, r) := if x &&& 0xf0000000 = 0 then ((x <<< 4) % 2 ^ 32, r - 4) else (x, r)
  let (x, r) := if x &&& 0xc0000000 = 0 then ((x <<< 2) % 2 ^ 32, r - 2) else (x, r)
  let (_, r) := if x &&& 0x80000000 = 0 then ((x <<< 1) % 2 ^ 32, r - 1) else (x, r)
  r

/-- The expression `fls((chip->gpio_chip.ngpio - 1) / BANK_SZ)` of lines 115,
171 and 196.  In C `(0 - 1) / 8` is `0`, as is the truncated subtraction. -/
def bank_shift (ngpio : Nat) : Nat := fls ((ngpio - 1) / BANK_SZ)

/-! ## Transfer routines -/

/-- Lines 111-127.  `reg` is the register number, `val` the `u32` value, `off`
the pin index. -/
def pca953x_write_single (bus : Bus) (chip : pca953x_chip) (log : List Event)
    (reg : Nat) (val : Nat) (off : Nat) : Int × List Event :=
  let offset := off / BANK_SZ
  let (r, log) := i2c_smbus bus log
    (Txn.write_byte_data (((reg <<< bank_shift chip.ngpio) + offset) % 256) (val % 256))
  if r.ret < 0 then (r.ret, log) else (0, log)

/-- The `switch (chip->chip_type)` of lines 145-152, with `offset`
initialised to `0` at line 134. -/
def output_offset (chip_type : Int) : Nat :=
  if chip_type = PCA953X_TYPE then PCA953X_OUTPUT
  else if chip_type = PCA957X_TYPE then PCA957X_OUT
  else 0

/-- The new output byte of lines 138-143: `cur | (1u << bit)` or
`cur & ~(1u << bit)` in 32-bit unsigned arithmetic, stored in a `u8`. -/
def set_value_reg_val (cur : Nat) (off : Nat) (val : Int) : Nat :=
  if val ≠ 0 then (cur ||| (1 <<< (off % BANK_SZ))) % 256
  else (cur &&& (0xFFFFFFFF ^^^ (1 <<< (off % BANK_SZ)))) % 256

/-- Lines 130-160.  The function returns `void`: the result is the chip and
the log after the call.  `none` when `off / BANK_SZ` is outside `reg_output`. -/
def pca953x_gpio_set_value (bus : Bus) (chip : pca953x_chip) (log : List Event)
    (off : Nat) (val : Int) : Option (pca953x_chip × List Event) :=
  let log := log ++ [Event.mutex_lock]
  match chip.reg_output[off / BANK_SZ]? with
  | none => none
  | some cur =>
    let reg_val := set_value_reg_val cur off val
    let offset := output_offset chip.chip_type
    let (ret, log) := pca953x_write_single bus chip log offset reg_val off
    if ret ≠ 0 then
      some (chip, log ++ [Event.mutex_unlock])
    else
      some ({ chip with reg_output := chip.reg_output.set (off / BANK_SZ) reg_val },
            log ++ [Event.mutex_unlock])

/-- Conversion of an `int` to `u8`. -/
def to_u8 (x : Int) : Nat := (x % 256).toNat

/-- Conversion of an `int` to `u16`. -/
def to_u16 (x : Int) : Nat := (x % 65536).toNat

/-- Conversion of an `int` to `unsigned int`. -/
def to_u32 (x : Int) : Nat := (x % 4294967296).toNat

/-- Store `bytes` at the start of the buffer `val`; `none` when they do not
fit. -/
def store_bytes (val : List Nat) (bytes : List Nat) : Option (List Nat) :=
  if bytes.length ≤ val.length then some (bytes ++ val.drop bytes.length) else none

/-- Lines 163-187.  `val` is the buffer of the caller; the result is the
return value, the buffer after the call and the log.  The byte and word
branches store into `val` before `ret` is tested (lines 169, 178-179); in the
block branch the bus fills the buffer with the bytes of its reply.  `none`
when the stored bytes do not fit in `val`. -/
def pca953x_read_regs (bus : Bus) (chip : pca953x_chip) (log : List Event)
    (reg : Nat) (val : List Nat) : Option (Int × List Nat × List Event) :=
  let step : Option (Int × List Nat × List Event) :=
    if chip.ngpio ≤ 8 then
      let (r, log) := i2c_smbus bus log (Txn.read_byte_data (reg % 256))
      (store_bytes val [to_u8 r.ret]).map fun val => (r.ret, val, log)
    else if chip.ngpio ≥ 24 then
      let (r, log) := i2c_smbus bus log
        (Txn.read_i2c_block_data (((reg <<< bank_shift chip.ngpio) ||| REG_ADDR_AI) % 256)
          (NBANK chip % 256))
      (store_bytes val r.block).map fun val => (r.ret, val, log)
    else
      let (r, log) := i2c_smbus bus log (Txn.read_word_data ((reg <<< 1) % 256))
      (store_bytes val [to_u16 r.ret &&& 0xFF, (to_u16 r.ret >>> 8) % 256]).map
        fun val => (r.ret, val, log)
  step.map fun (ret, val, log) => if ret < 0 then (ret, val, log) else (0, val, log)

/-- Lines 189-224.  `val` is the byte array of the caller; `none` when a byte
that is read lies outside it.  In the word branch the value passed is
`(u16) *val`, the byte `val[0]` widened to 16 bits (line 204).  A `chip_type`
that matches no `case` leaves `ret = 0`. -/
def pca953x_write_regs (bus : Bus) (chip : pca953x_chip) (log : List Event)
    (reg : Nat) (val : List Nat) : Option (Int × List Event) :=
  let step : Option (Int × List Event) :=
    if chip.ngpio ≤ 8 then
      val[0]?.map fun v0 =>
        let (r, log) := i2c_smbus bus log (Txn.write_byte_data (reg % 256) v0)
        (r.ret, log)
    else if chip.ngpio ≥ 24 then
      if NBANK chip % 256 ≤ val.length then
        let (r, log) := i2c_smbus bus log
          (Txn.write_i2c_block_data (((reg <<< bank_shift chip.ngpio) ||| REG_ADDR_AI) % 256)
            (NBANK chip % 256) (val.take (NBANK chip % 256)))
        some (r.ret, log)
      else none
    else
      if chip.chip_type = PCA953X_TYPE then
        val[0]?.map fun v0 =>
          let (r, log) := i2c_smbus bus log (Txn.write_word_data ((reg <<< 1) % 256) v0)
          (r.ret, log)
      else if chip.chip_type = PCA957X_TYPE then
        val[0]?.bind fun v0 =>
          let (r, log) := i2c_smbus bus log (Txn.write_byte_data ((reg <<< 1) % 256) v0)
          if r.ret < 0 then some (r.ret, log)
          else
            val[1]?.map fun v1 =>
              let (r, log) := i2c_smbus bus log
                (Txn.write_byte_data (((reg <<< 1) + 1) % 256) v1)
              (r.ret, log)
      else some (0, log)
  step.map fun (ret, log) => if ret < 0 then (ret, log) else (0, log)

/-! ## The sysfs store functions -/

/-- The global state of the module: `my_chip` and the three `static int`
variables of lines 101-104, with the log. -/
structure Driver where
  my_chip : pca953x_chip
  Direction : Int
  Output : Int
  Invert_Output : Int
  log : List Event
deriving DecidableEq, Repr

/-- The conversion of the `size_t count` argument of a store function to the
`ssize_t` it returns, on a 64-bit kernel (`size_t` is `unsigned long`,
`ssize_t` is `long`): `count` itself below `2 ^ 63`, and `count - 2 ^ 64`
from there on. -/
def to_ssize_t (count : Nat) : Int :=
  if count % 18446744073709551616 < 9223372036854775808 then
    ((count % 18446744073709551616 : Nat) : Int)
  else
    ((count % 18446744073709551616 : Nat) : Int) - 18446744073709551616

/-- The call `sscanf(buf, "%du", &x)`: `scanned` is the integer `sscanf` reads
from `buf`, if there is one; otherwise `x` keeps its value. -/
def sscanf_int (scanned : Option Int) (x : Int) : Int := scanned.getD x

/-- The call `memset(val, c, n)` on a `u8 [MAX_BANK]` array whose content
before the call is `val`; `none` when `n` bytes do not fit. -/
def memset (val : List Nat) (c : Int) (n : Nat) : Option (List Nat) :=
  store_bytes val (List.replicate n (to_u8 c))

/-- Lines 235-249.  `stack` is the content of the uninitialised local array
`val` on entry; the result is the returned `ssize_t`, which is the `size_t`
argument `count` converted (line 248), and the new state.  Both
values assigned to `ret` are dropped, no lock is taken and no field of
`my_chip` is written. -/
def Direction_store (bus : Bus) (d : Driver) (stack : List Nat) (scanned : Option Int)
    (count : Nat) : Option (Int × Driver) :=
  let regis_output := List.replicate MAX_BANK 0
  let Direction := sscanf_int scanned d.Direction
  (memset stack Direction (NBANK d.my_chip)).bind fun val =>
  (pca953x_write_regs bus d.my_chip d.log PCA953X_DIRECTION val).bind fun (_, log) =>
  (pca953x_read_regs bus d.my_chip log PCA953X_DIRECTION regis_output).map fun (_, _, log) =>
    (to_ssize_t count, { d with Direction := Direction, log := log })

/-- Lines 260-273.  The scanned integer is passed as the `unsigned int` pin
index with level `1`; the read that follows runs after the unlock. -/
def Output_store (bus : Bus) (d : Driver) (stack : List Nat) (scanned : Option Int)
    (count : Nat) : Option (Int × Driver) :=
  let regis_output := List.replicate MAX_BANK 0
  let Output := sscanf_int scanned d.Output
  (memset stack Output (NBANK d.my_chip)).bind fun _ =>
  (pca953x_gpio_set_value bus d.my_chip d.log (to_u32 Output) 1).bind fun (chip, log) =>
  (pca953x_read_regs bus chip log PCA953X_OUTPUT regis_output).map fun (_, _, log) =>
    (to_ssize_t count, { d with my_chip := chip, Output := Output, log := log })

/-- Lines 283-296.  As `Output_store`, with level `0`. -/
def Invert_Output_store (bus : Bus) (d : Driver) (stack : List Nat) (scanned : Option Int)
    (count : Nat) : Option (Int × Driver) :=
  let regis_output := List.replicate MAX_BANK 0
  let Invert_Output := sscanf_int scanned d.Invert_Output
  (memset stack Invert_Output (NBANK d.my_chip)).bind fun _ =>
  (pca953x_gpio_set_value bus d.my_chip d.log (to_u32 Invert_Output) 0).bind fun (chip, log) =>
  (pca953x_read_regs bus chip log PCA953X_OUTPUT regis_output).map fun (_, _, log) =>
    (to_ssize_t count, { d with my_chip := chip, Invert_Output := Invert_Output, log := log })

/-! ## Auxiliary notions used in the statements -/

/-- The pin counts of the table `pca953x_id` (lines 47-73). -/
def supported (ngpio : Nat) : Prop :=
  ngpio = 4 ∨ ngpio = 8 ∨ ngpio = 16 ∨ ngpio = 24 ∨ ngpio = 40

instance (n : Nat) : Decidable (supported n) := by unfold supported; infer_instance

/-- The number of banks of a chip, `ceil(pin_count / 8)`. -/
def bank_count (ngpio : Nat) : Nat := (ngpio + 7) / 8

/-- The transaction that `pca953x_gpio_set_value` hands to the bus through
`pca953x_write_single` (lines 153 and 118-119), `cur` being the shadow byte
`reg_output[off / BANK_SZ]`. -/
def set_value_txn (chip : pca953x_chip) (cur off : Nat) (val : Int) : Txn :=
  Txn.write_byte_data
    (((output_offset chip.chip_type <<< bank_shift chip.ngpio) + off / BANK_SZ) % 256)
    (set_value_reg_val cur off val % 256)

/-- The contract of the transport for block reads: a block read of `n` bytes
stores at most `n` bytes in the buffer, and exactly `n` when it succeeds. -/
def block_read_ok (bus : Bus) : Prop :=
  ∀ (log : List Event) (c n : Nat),
    (bus log (Txn.read_i2c_block_data c n)).block.length ≤ n ∧
    (0 ≤ (bus log (Txn.read_i2c_block_data c n)).ret →
      (bus log (Txn.read_i2c_block_data c n)).block.length = n)

/-- A bus that accepts every transaction and returns `0`, no data. -/
def okBus : Bus := fun _ _ => ⟨0, []⟩

/-- A bus on which every transaction fails with `-EIO` (`-5`). -/
def failBus : Bus := fun _ _ => ⟨-5, []⟩

/-- A bus that keeps the block-read contract: a block read of `n` bytes
returns `n` and stores `n` bytes `0xA5`; every other transaction returns `0`. -/
def devBus : Bus := fun _ t =>
  match t with
  | Txn.read_i2c_block_data _ n => ⟨n, List.replicate n 0xA5⟩
  | _ => ⟨0, []⟩

/-- A 8-pin layout-A chip with all output latches high and all pins inputs. -/
def chip8 : pca953x_chip := ⟨8, PCA953X_TYPE, [0xFF, 0, 0, 0, 0], [0xFF, 0, 0, 0, 0]⟩

/-- A 16-pin layout-A chip. -/
def chip16A : pca953x_chip := ⟨16, PCA953X_TYPE, [0xFF, 0xFF, 0, 0, 0], [0xFF, 0xFF, 0, 0, 0]⟩

/-- A 16-pin layout-B chip. -/
def chip16B : pca953x_chip := ⟨16, PCA957X_TYPE, [0, 0, 0, 0, 0], [0, 0, 0, 0, 0]⟩

/-- A 40-pin layout-A chip. -/
def chip40 : pca953x_chip := ⟨40, PCA953X_TYPE, [1, 2, 3, 4, 5], [0, 0, 0, 0, 0]⟩

/-- A bus on which the first transaction of a call succeeds and every later
one fails with `-EIO`: it answers `0` while the log is empty and `-5` after. -/
def partialBus : Bus := fun log _ => if log = [] then ⟨0, []⟩ else ⟨-5, []⟩

/-- A 4-pin layout-A chip (the `pca9536` line of the table). -/
def chip4 : pca953x_chip := ⟨4, PCA953X_TYPE, [0x0F, 0, 0, 0, 0], [0x0F, 0, 0, 0, 0]⟩

/-- A 8-pin layout-B chip (the `pca9574` line of the table). -/
def chip8B : pca953x_chip := ⟨8, PCA957X_TYPE, [0, 0, 0, 0, 0], [0, 0, 0, 0, 0]⟩

/-! ## Reading a trace -/

/-- A transport event. -/
def is_i2c (e : Event) : Bool :=
  match e with
  | Event.i2c _ _ => true
  | _ => false

/-- A transport event whose reply is negative. -/
def i2c_failed (e : Event) : Bool :=
  match e with
  | Event.i2c _ r => decide (r.ret < 0)
  | _ => false

/-- The relation between the value `ret` a transfer routine returns and the
events `evs` it appended: all of them are transport events, and either `ret`
is `0` and none of them failed, or `ret` is negative, it is the reply of the
last event, and no event before that one failed. -/
def transfer_outcome (ret : Int) (evs : List Event) : Prop :=
  (∀ e ∈ evs, is_i2c e = true) ∧
  ((ret = 0 ∧ ∀ e ∈ evs, i2c_failed e = false) ∨
   (ret < 0 ∧ ∃ (pre : List Event) (t : Txn) (r : Reply),
      evs = pre ++ [Event.i2c t r] ∧ r.ret = ret ∧ ∀ e ∈ pre, i2c_failed e = false))

/-- Whether the events `evs`, appended to a trace that was `log`, are
transport events each of which carries the reply the bus gives to its
transaction at that point of the trace. -/
def replies_from (bus : Bus) (log : List Event) (evs : List Event) : Bool :=
  match evs with
  | [] => true
  | Event.i2c t r :: es =>
      decide (r = bus log t) && replies_from bus (log ++ [Event.i2c t r]) es
  | _ :: _ => false

/-- Whether the lock is held after a trace, `held` telling whether it was held
before. -/
def lock_held (held : Bool) (tr : List Event) : Bool :=
  match tr with
  | [] => held
  | Event.mutex_lock :: es => lock_held true es
  | Event.mutex_unlock :: es => lock_held false es
  | Event.i2c _ _ :: es => lock_held held es

/-- Whether every transport event of a trace occurs while the lock is held,
`held` telling whether it was held before the trace. -/
def i2c_under_lock (held : Bool) (tr : List Event) : Bool :=
  match tr with
  | [] => true
  | Event.mutex_lock :: es => i2c_under_lock true es
  | Event.mutex_unlock :: es => i2c_under_lock false es
  | Event.i2c _ _ :: es => held && i2c_under_lock held es

/-- The device side of a write, in the words of the spec (4.1, 4.2 and the
glossary): the physical registers a transaction writes, with the byte each
receives.  A byte write at address `c` writes `c`; a word write at `c` writes
the low byte to `c` and the high byte to `c + 1`; a block write at `c` with
the auto-increment flag writes consecutive registers from `c` without the
flag. -/
def txn_writes (t : Txn) : List (Nat × Nat) :=
  match t with
  | Txn.write_byte_data c v => [(c, v)]
  | Txn.write_word_data c v => [(c, v % 256), (c + 1, v / 256)]
  | Txn.write_i2c_block_data c _ vs =>
      List.zip ((List.range vs.length).map fun k => c % 128 + k) vs
  | _ => []

/-- The last byte a successful transaction of the trace wrote to the physical
register `addr`, if there is one. -/
def last_written (tr : List Event) (addr : Nat) : Option Nat :=
  match tr with
  | [] => none
  | e :: es =>
    match last_written es addr with
    | some v => some v
    | none =>
      match e with
      | Event.i2c t r => if r.ret < 0 then none else (txn_writes t).lookup addr
      | _ => none

/-! ## Lemmas on `pca953x_gpio_set_value` -/

theorem set_value_unfold (bus : Bus) (chip : pca953x_chip) (log : List Event) (off : Nat)
    (val : Int) (cur : Nat) (h : chip.reg_output[off / BANK_SZ]? = some cur) :
    pca953x_gpio_set_value bus chip log off val =
      some (if (bus (log ++ [Event.mutex_lock]) (set_value_txn chip cur off val)).ret < 0 then chip
            else { chip with
                   reg_output := chip.reg_output.set (off / BANK_SZ) (set_value_reg_val cur off val) },
            log ++ [Event.mutex_lock,
                    Event.i2c (set_value_txn chip cur off val)
                      (bus (log ++ [Event.mutex_lock]) (set_value_txn chip cur off val)),
                    Event.mutex_unlock]) := by
  unfold pca953x_gpio_set_value
  simp only [h, pca953x_write_single, i2c_smbus, set_value_txn]
  by_cases hr : (bus (log ++ [Event.mutex_lock]) (Txn.write_byte_data
      (((output_offset chip.chip_type <<< bank_shift chip.ngpio) + off / BANK_SZ) % 256)
      (set_value_reg_val cur off val % 256))).ret < 0
  · have hne : (bus (log ++ [Event.mutex_lock]) (Txn.write_byte_data
      (((output_offset chip.chip_type <<< bank_shift chip.ngpio) + off / BANK_SZ) % 256)
      (set_value_reg_val cur off val % 256))).ret ≠ 0 := by omega
    simp [hr, hne]
  · simp [hr]

theorem reg_val_lt (cur off : Nat) (val : Int) : set_value_reg_val cur off val < 256 := by
  unfold set_value_reg_val
  split <;> exact Nat.mod_lt _ (by norm_num)

theorem reg_val_testBit (cur off : Nat) (val : Int) (j : Nat) (hj : j < 8) :
    (set_value_reg_val cur off val).testBit j =
      if j = off % BANK_SZ then decide (val ≠ 0) else cur.testBit j := by
  have hk : off % BANK_SZ < 8 := Nat.mod_lt _ (by decide)
  have h256 : (256 : Nat) = 2 ^ 8 := by norm_num
  have hff : (0xFFFFFFFF : Nat) = 2 ^ 32 - 1 := by norm_num
  unfold set_value_reg_val
  by_cases hv : val = 0
  · simp only [hv, ne_eq, not_true_eq_false, if_false, h256, hff, Nat.testBit_mod_two_pow,
      Nat.testBit_land, Nat.testBit_xor, Nat.testBit_two_pow_sub_one, Nat.one_shiftLeft,
      Nat.testBit_two_pow]
    by_cases hjk : j = off % BANK_SZ
    · subst hjk
      simp only [hj, decide_True, Bool.true_and, true_and, if_true]
      simp
      intro _; omega
    · have : ¬ (off % BANK_SZ = j) := fun h => hjk h.symm
      have h32 : j < 32 := by omega
      simp [hj, hjk, this, h32]
  · simp only [hv, ne_eq, not_false_eq_true, if_true, h256, Nat.testBit_mod_two_pow,
      Nat.testBit_lor, Nat.one_shiftLeft, Nat.testBit_two_pow]
    by_cases hjk : j = off % BANK_SZ
    · subst hjk; simp [hj]
    · have : ¬ (off % BANK_SZ = j) := fun h => hjk h.symm
      simp [hj, hjk, this]

/-! ## Claims C1 to C4 -/

theorem bank_in_range (n i : Nat) (hn : n ≤ MAX_BANK * BANK_SZ) (hi : i < n) :
    i / BANK_SZ < MAX_BANK := by
  simp only [MAX_BANK, BANK_SZ] at *
  omega

theorem supported_le (n : Nat) (h : supported n) : n ≤ MAX_BANK * BANK_SZ := by
  simp only [MAX_BANK, BANK_SZ]
  rcases h with h | h | h | h | h <;> omega

theorem shadow_byte_exists (l : List Nat) (b : Nat) (hlen : l.length = MAX_BANK)
    (hb : b < MAX_BANK) : ∃ cur, l[b]? = some cur := by
  have hb2 : b < l.length := by omega
  exact ⟨l[b], List.getElem?_eq_getElem hb2⟩

/-- C1: on a chip with a supported pin count, for a pin index `i < pin_count`
and a level `v`, the call `pca953x_gpio_set_value(i, v)` issues one transport
write; if that write succeeds, then afterwards bit `i % 8` of
`reg_output[i / 8]` is `1` for a non-zero `v` and `0` for `v = 0`, every other
bit of that byte is as before, the byte is still a `u8`, and the shadow
byte of every other bank is as before. -/
theorem set_value_success_frame (bus : Bus) (chip : pca953x_chip) (log : List Event)
    (i : Nat) (v : Int) (hlen : chip.reg_output.length = MAX_BANK)
    (hsup : supported chip.ngpio) (hi : i < chip.ngpio) :
    ∃ (t : Txn) (chip' : pca953x_chip) (cur : Nat),
      chip.reg_output[i / BANK_SZ]? = some cur ∧
      pca953x_gpio_set_value bus chip log i v =
        some (chip', log ++ [Event.mutex_lock,
                             Event.i2c t (bus (log ++ [Event.mutex_lock]) t),
                             Event.mutex_unlock]) ∧
      (0 ≤ (bus (log ++ [Event.mutex_lock]) t).ret →
        ∃ nb : Nat, chip'.reg_output[i / BANK_SZ]? = some nb ∧ nb < 256 ∧
          nb.testBit (i % BANK_SZ) = decide (v ≠ 0) ∧
          (∀ j : Nat, j < 8 → j ≠ i % BANK_SZ → nb.testBit j = cur.testBit j) ∧
          (∀ b : Nat, b ≠ i / BANK_SZ → chip'.reg_output[b]? = chip.reg_output[b]?)) := by
  have hb : i / BANK_SZ < MAX_BANK := bank_in_range _ _ (supported_le _ hsup) hi
  obtain ⟨cur, hcur⟩ := shadow_byte_exists _ _ hlen hb
  refine ⟨set_value_txn chip cur i v, _, cur, hcur, set_value_unfold bus chip log i v cur hcur, ?_⟩
  intro hok
  have hnot : ¬ (bus (log ++ [Event.mutex_lock]) (set_value_txn chip cur i v)).ret < 0 := by omega
  simp only [hnot, if_false]
  have hb2 : i / BANK_SZ < chip.reg_output.length := by omega
  refine ⟨set_value_reg_val cur i v, ?_, reg_val_lt cur i v, ?_, ?_, ?_⟩
  · simp [List.getElem?_set, hb2]
  · rw [reg_val_testBit cur i v (i % BANK_SZ) (Nat.mod_lt _ (by decide))]
    simp
  · intro j hj hne
    rw [reg_val_testBit cur i v j hj]
    simp [hne]
  · intro b hne
    simp [List.getElem?_set, Ne.symm hne]

/-- An instance: pin 11 of the 16-pin chip `chip16A`, driven high on a bus that
accepts every transaction. -/
theorem set_value_success_frame_witness :
    (chip16A.reg_output.length = MAX_BANK ∧ supported chip16A.ngpio ∧ 11 < chip16A.ngpio) ∧
    ∃ (t : Txn) (chip' : pca953x_chip) (cur : Nat),
      chip16A.reg_output[11 / BANK_SZ]? = some cur ∧
      pca953x_gpio_set_value okBus chip16A [] 11 1 =
        some (chip', [] ++ [Event.mutex_lock,
                             Event.i2c t (okBus ([] ++ [Event.mutex_lock]) t),
                             Event.mutex_unlock]) ∧
      (0 ≤ (okBus ([] ++ [Event.mutex_lock]) t).ret →
        ∃ nb : Nat, chip'.reg_output[11 / BANK_SZ]? = some nb ∧ nb < 256 ∧
          nb.testBit (11 % BANK_SZ) = decide ((1 : Int) ≠ 0) ∧
          (∀ j : Nat, j < 8 → j ≠ 11 % BANK_SZ → nb.testBit j = cur.testBit j) ∧
          (∀ b : Nat, b ≠ 11 / BANK_SZ → chip'.reg_output[b]? = chip16A.reg_output[b]?)) :=
  ⟨⟨by decide, by decide, by decide⟩,
   set_value_success_frame okBus chip16A [] 11 1 (by decide) (by decide) (by decide)⟩

/-- C2: for every chip whose pin count fits the shadow array and every pin
index `i < pin_count`, if the transport write issued by
`pca953x_gpio_set_value(i, v)` fails (its reply is negative), the chip after
the call, and with it the whole output shadow, equals the chip before. -/
theorem set_value_failure_keeps_shadow (bus : Bus) (chip : pca953x_chip) (log : List Event)
    (i : Nat) (v : Int) (hlen : chip.reg_output.length = MAX_BANK)
    (hn : chip.ngpio ≤ MAX_BANK * BANK_SZ) (hi : i < chip.ngpio) :
    ∃ (t : Txn) (chip' : pca953x_chip),
      pca953x_gpio_set_value bus chip log i v =
        some (chip', log ++ [Event.mutex_lock,
                             Event.i2c t (bus (log ++ [Event.mutex_lock]) t),
                             Event.mutex_unlock]) ∧
      ((bus (log ++ [Event.mutex_lock]) t).ret < 0 →
        chip'.reg_output = chip.reg_output ∧ chip' = chip) := by
  have hb : i / BANK_SZ < MAX_BANK := bank_in_range _ _ hn hi
  obtain ⟨cur, hcur⟩ := shadow_byte_exists _ _ hlen hb
  refine ⟨set_value_txn chip cur i v, _, set_value_unfold bus chip log i v cur hcur, ?_⟩
  intro hfail
  simp only [hfail, if_true, and_self]

/-- An instance: pin 37 of the 40-pin chip `chip40` on a bus where every
transaction fails. -/
theorem set_value_failure_keeps_shadow_witness :
    (chip40.reg_output.length = MAX_BANK ∧ chip40.ngpio ≤ MAX_BANK * BANK_SZ ∧
      37 < chip40.ngpio) ∧
    ∃ (t : Txn) (chip' : pca953x_chip),
      pca953x_gpio_set_value failBus chip40 [] 37 1 =
        some (chip', [] ++ [Event.mutex_lock,
                             Event.i2c t (failBus ([] ++ [Event.mutex_lock]) t),
                             Event.mutex_unlock]) ∧
      ((failBus ([] ++ [Event.mutex_lock]) t).ret < 0 →
        chip'.reg_output = chip40.reg_output ∧ chip' = chip40) :=
  ⟨⟨by decide, by decide, by decide⟩,
   set_value_failure_keeps_shadow failBus chip40 [] 37 1 (by decide) (by decide) (by decide)⟩

theorem bank_shift_table : bank_shift 4 = 0 ∧ bank_shift 8 = 0 ∧ bank_shift 16 = 1 ∧
    bank_shift 24 = 2 ∧ bank_shift 40 = 3 := by
  decide

theorem output_offset_layout (ct : Int) (h : ct = PCA953X_TYPE ∨ ct = PCA957X_TYPE) :
    output_offset ct = if ct = PCA953X_TYPE then 1 else 5 := by
  rcases h with h | h <;> subst h <;> decide

theorem set_value_address (n R i : Nat) (hsup : supported n) (hR : R ≤ 7) (hi : i < n) :
    ((R <<< bank_shift n) + i / BANK_SZ) % 256 = (R <<< bank_shift n) + i / BANK_SZ := by
  obtain ⟨h4, h8, h16, h24, h40⟩ := bank_shift_table
  apply Nat.mod_eq_of_lt
  simp only [BANK_SZ]
  rcases hsup with h | h | h | h | h <;> subst h <;>
    simp only [h4, h8, h16, h24, h40, Nat.shiftLeft_eq] <;> omega

/-- C3: on a chip with a supported pin count and layout A or B, for a pin
index `i < pin_count`, the call `pca953x_gpio_set_value(i, v)` issues exactly
one transport transaction, between taking and releasing the lock: a
single-byte write at address `(R << bank_shift) + i / 8`, where `R` is `1` for
layout A and `5` for layout B, of the byte that is `reg_output[i / 8]` with
bit `i % 8` set (non-zero `v`) or cleared (`v = 0`) and every other bit kept. -/
theorem set_value_single_write (bus : Bus) (chip : pca953x_chip) (log : List Event)
    (i : Nat) (v : Int) (hlen : chip.reg_output.length = MAX_BANK)
    (hsup : supported chip.ngpio)
    (hlay : chip.chip_type = PCA953X_TYPE ∨ chip.chip_type = PCA957X_TYPE)
    (hi : i < chip.ngpio) :
    ∃ (chip' : pca953x_chip) (cur b : Nat) (r : Reply),
      chip.reg_output[i / BANK_SZ]? = some cur ∧
      pca953x_gpio_set_value bus chip log i v =
        some (chip', log ++ [Event.mutex_lock,
          Event.i2c (Txn.write_byte_data
            (((if chip.chip_type = PCA953X_TYPE then 1 else 5) <<< bank_shift chip.ngpio)
              + i / 8) b) r,
          Event.mutex_unlock]) ∧
      b = set_value_reg_val cur i v ∧ b < 256 ∧
      (∀ j : Nat, j < 8 → b.testBit j = if j = i % 8 then decide (v ≠ 0) else cur.testBit j) := by
  have hb : i / BANK_SZ < MAX_BANK := bank_in_range _ _ (supported_le _ hsup) hi
  obtain ⟨cur, hcur⟩ := shadow_byte_exists _ _ hlen hb
  have hR : output_offset chip.chip_type ≤ 7 := by
    rw [output_offset_layout _ hlay]; split <;> omega
  have hu := set_value_unfold bus chip log i v cur hcur
  simp only [set_value_txn, set_value_address _ _ _ hsup hR hi,
    Nat.mod_eq_of_lt (reg_val_lt cur i v)] at hu
  simp only [output_offset_layout _ hlay] at hu
  refine ⟨_, cur, set_value_reg_val cur i v, _, hcur, hu, rfl, reg_val_lt cur i v, ?_⟩
  intro j hj
  exact reg_val_testBit cur i v j hj

/-- An instance: pin 9 of the 16-pin layout-B chip `chip16B`, driven high. -/
theorem set_value_single_write_witness :
    (chip16B.reg_output.length = MAX_BANK ∧ supported chip16B.ngpio ∧
      (chip16B.chip_type = PCA953X_TYPE ∨ chip16B.chip_type = PCA957X_TYPE) ∧
      9 < chip16B.ngpio) ∧
    ∃ (chip' : pca953x_chip) (cur b : Nat) (r : Reply),
      chip16B.reg_output[9 / BANK_SZ]? = some cur ∧
      pca953x_gpio_set_value okBus chip16B [] 9 1 =
        some (chip', [] ++ [Event.mutex_lock,
          Event.i2c (Txn.write_byte_data
            (((if chip16B.chip_type = PCA953X_TYPE then 1 else 5) <<< bank_shift chip16B.ngpio)
              + 9 / 8) b) r,
          Event.mutex_unlock]) ∧
      b = set_value_reg_val cur 9 1 ∧ b < 256 ∧
      (∀ j : Nat, j < 8 →
        b.testBit j = if j = 9 % 8 then decide ((1 : Int) ≠ 0) else cur.testBit j) :=
  ⟨⟨by decide, by decide, by decide, by decide⟩,
   set_value_single_write okBus chip16B [] 9 1 (by decide) (by decide) (by decide) (by decide)⟩

theorem bank_shift_values : ∀ n : Nat, n ≤ 40 →
    bank_shift n = if n ≤ 8 then 0 else if n ≤ 16 then 1 else if n ≤ 32 then 2 else 3 := by
  decide

/-- C4: for every pin count from 1 to 40 (so for the supported 4, 8, 16, 24,
40) the bank shift `fls((pin_count - 1) / 8)` is the smallest `s` with
`2 ^ s >= ceil(pin_count / 8)`; it is 0 for 8 pins, 1 for 16, 2 for 24 and 3
for 40. -/
theorem bank_shift_least (n : Nat) (h1 : 1 ≤ n) (h40 : n ≤ 40) :
    bank_count n ≤ 2 ^ bank_shift n ∧
    (∀ s : Nat, bank_count n ≤ 2 ^ s → bank_shift n ≤ s) ∧
    (bank_shift 8 = 0 ∧ bank_shift 16 = 1 ∧ bank_shift 24 = 2 ∧ bank_shift 40 = 3) := by
  have hv := bank_shift_values n h40
  have hc : bank_count n = (n + 7) / 8 := rfl
  refine ⟨?_, ?_, by decide⟩
  · rw [hv, hc]
    split_ifs <;> norm_num <;> omega
  · intro s hs
    rw [hv]
    rw [hc] at hs
    by_contra hlt
    split_ifs at hlt with ha hb hd
    · omega
    · have : s = 0 := by omega
      subst this
      norm_num at hs
      omega
    · have : s ≤ 1 := by omega
      have h2 : 2 ^ s ≤ 2 ^ 1 := Nat.pow_le_pow_right (by norm_num) this
      norm_num at h2
      omega
    · have : s ≤ 2 := by omega
      have h2 : 2 ^ s ≤ 2 ^ 2 := Nat.pow_le_pow_right (by norm_num) this
      norm_num at h2
      omega

/-- An instance: 24 pins, three banks, shift 2. -/
theorem bank_shift_least_witness :
    (1 ≤ 24 ∧ 24 ≤ 40) ∧
    bank_count 24 ≤ 2 ^ bank_shift 24 ∧
    (∀ s : Nat, bank_count 24 ≤ 2 ^ s → bank_shift 24 ≤ s) ∧
    (bank_shift 8 = 0 ∧ bank_shift 16 = 1 ∧ bank_shift 24 = 2 ∧ bank_shift 40 = 3) :=
  ⟨⟨by decide, by decide⟩, bank_shift_least 24 (by decide) (by decide)⟩

/-! ## Lemmas on the multi-bank transfer routines -/

theorem read_regs_byte (bus : Bus) (chip : pca953x_chip) (log : List Event) (reg : Nat)
    (val : List Nat) (h : chip.ngpio ≤ 8) (hval : 1 ≤ val.length) :
    pca953x_read_regs bus chip log reg val =
      some (if (bus log (Txn.read_byte_data (reg % 256))).ret < 0
              then (bus log (Txn.read_byte_data (reg % 256))).ret else 0,
            to_u8 (bus log (Txn.read_byte_data (reg % 256))).ret :: val.drop 1,
            log ++ [Event.i2c (Txn.read_byte_data (reg % 256))
                      (bus log (Txn.read_byte_data (reg % 256)))]) := by
  unfold pca953x_read_regs
  simp only [h, if_true, i2c_smbus, store_bytes, List.length_singleton, hval]
  split_ifs <;> simp <;> intro _ <;> omega

theorem read_regs_word (bus : Bus) (chip : pca953x_chip) (log : List Event) (reg : Nat)
    (val : List Nat) (h : 8 < chip.ngpio) (h2 : chip.ngpio < 24) (hval : 2 ≤ val.length) :
    pca953x_read_regs bus chip log reg val =
      some (if (bus log (Txn.read_word_data ((reg <<< 1) % 256))).ret < 0
              then (bus log (Txn.read_word_data ((reg <<< 1) % 256))).ret else 0,
            (to_u16 (bus log (Txn.read_word_data ((reg <<< 1) % 256))).ret &&& 0xFF) ::
              ((to_u16 (bus log (Txn.read_word_data ((reg <<< 1) % 256))).ret >>> 8) % 256) ::
              val.drop 2,
            log ++ [Event.i2c (Txn.read_word_data ((reg <<< 1) % 256))
                      (bus log (Txn.read_word_data ((reg <<< 1) % 256)))]) := by
  unfold pca953x_read_regs
  have h8 : ¬ chip.ngpio ≤ 8 := by omega
  have h24 : ¬ chip.ngpio ≥ 24 := by omega
  have hl : [to_u16 (bus log (Txn.read_word_data ((reg <<< 1) % 256))).ret &&& 0xFF,
      (to_u16 (bus log (Txn.read_word_data ((reg <<< 1) % 256))).ret >>> 8) % 256].length
        ≤ val.length := by simpa using hval
  simp only [h8, h24, if_false, i2c_smbus, store_bytes, hl, if_true]
  split_ifs <;> simp <;> intro _ <;> omega

theorem read_regs_block (bus : Bus) (chip : pca953x_chip) (log : List Event) (reg : Nat)
    (val : List Nat) (h : 24 ≤ chip.ngpio)
    (hfit : (bus log (Txn.read_i2c_block_data
      (((reg <<< bank_shift chip.ngpio) ||| REG_ADDR_AI) % 256) (NBANK chip % 256))).block.length
        ≤ val.length) :
    pca953x_read_regs bus chip log reg val =
      some (if (bus log (Txn.read_i2c_block_data
                (((reg <<< bank_shift chip.ngpio) ||| REG_ADDR_AI) % 256) (NBANK chip % 256))).ret < 0
              then (bus log (Txn.read_i2c_block_data
                (((reg <<< bank_shift chip.ngpio) ||| REG_ADDR_AI) % 256) (NBANK chip % 256))).ret
              else 0,
            (bus log (Txn.read_i2c_block_data
                (((reg <<< bank_shift chip.ngpio) ||| REG_ADDR_AI) % 256) (NBANK chip % 256))).block
              ++ val.drop (bus log (Txn.read_i2c_block_data
                (((reg <<< bank_shift chip.ngpio) ||| REG_ADDR_AI) % 256)
                (NBANK chip % 256))).block.length,
            log ++ [Event.i2c (Txn.read_i2c_block_data
                (((reg <<< bank_shift chip.ngpio) ||| REG_ADDR_AI) % 256) (NBANK chip % 256))
              (bus log (Txn.read_i2c_block_data
                (((reg <<< bank_shift chip.ngpio) ||| REG_ADDR_AI) % 256) (NBANK chip % 256)))]) := by
  unfold pca953x_read_regs
  have h8 : ¬ chip.ngpio ≤ 8 := by omega
  have h24 : chip.ngpio ≥ 24 := h
  simp only [h8, h24, if_false, if_true, i2c_smbus, store_bytes, hfit]
  split_ifs <;> simp <;> intro _ <;> omega

theorem write_regs_byte (bus : Bus) (chip : pca953x_chip) (log : List Event) (reg : Nat)
    (val : List Nat) (v0 : Nat) (h : chip.ngpio ≤ 8) (hval : val[0]? = some v0) :
    pca953x_write_regs bus chip log reg val =
      some (if (bus log (Txn.write_byte_data (reg % 256) v0)).ret < 0
              then (bus log (Txn.write_byte_data (reg % 256) v0)).ret else 0,
            log ++ [Event.i2c (Txn.write_byte_data (reg % 256) v0)
                      (bus log (Txn.write_byte_data (reg % 256) v0))]) := by
  unfold pca953x_write_regs
  simp only [h, if_true, i2c_smbus, hval, Option.map_some']
  split_ifs <;> rfl

theorem write_regs_block (bus : Bus) (chip : pca953x_chip) (log : List Event) (reg : Nat)
    (val : List Nat) (h : 24 ≤ chip.ngpio) (hval : NBANK chip % 256 ≤ val.length) :
    pca953x_write_regs bus chip log reg val =
      some (if (bus log (Txn.write_i2c_block_data
                (((reg <<< bank_shift chip.ngpio) ||| REG_ADDR_AI) % 256) (NBANK chip % 256)
                (val.take (NBANK chip % 256)))).ret < 0
              then (bus log (Txn.write_i2c_block_data
                (((reg <<< bank_shift chip.ngpio) ||| REG_ADDR_AI) % 256) (NBANK chip % 256)
                (val.take (NBANK chip % 256)))).ret
              else 0,
            log ++ [Event.i2c (Txn.write_i2c_block_data
                (((reg <<< bank_shift chip.ngpio) ||| REG_ADDR_AI) % 256) (NBANK chip % 256)
                (val.take (NBANK chip % 256)))
              (bus log (Txn.write_i2c_block_data
                (((reg <<< bank_shift chip.ngpio) ||| REG_ADDR_AI) % 256) (NBANK chip % 256)
                (val.take (NBANK chip % 256))))]) := by
  unfold pca953x_write_regs
  have h8 : ¬ chip.ngpio ≤ 8 := by omega
  have h24 : chip.ngpio ≥ 24 := h
  simp only [h8, h24, if_false, if_true, i2c_smbus, hval, Option.map_some']
  split_ifs <;> rfl

theorem write_regs_word (bus : Bus) (chip : pca953x_chip) (log : List Event) (reg : Nat)
    (val : List Nat) (v0 : Nat) (h : 8 < chip.ngpio) (h2 : chip.ngpio < 24)
    (hA : chip.chip_type = PCA953X_TYPE) (hval : val[0]? = some v0) :
    pca953x_write_regs bus chip log reg val =
      some (if (bus log (Txn.write_word_data ((reg <<< 1) % 256) v0)).ret < 0
              then (bus log (Txn.write_word_data ((reg <<< 1) % 256) v0)).ret else 0,
            log ++ [Event.i2c (Txn.write_word_data ((reg <<< 1) % 256) v0)
                      (bus log (Txn.write_word_data ((reg <<< 1) % 256) v0))]) := by
  unfold pca953x_write_regs
  have h8 : ¬ chip.ngpio ≤ 8 := by omega
  have h24 : ¬ chip.ngpio ≥ 24 := by omega
  simp only [h8, h24, hA, if_false, if_true, i2c_smbus, hval, Option.map_some']
  split_ifs <;> rfl

theorem write_regs_two_bytes (bus : Bus) (chip : pca953x_chip) (log : List Event) (reg : Nat)
    (val : List Nat) (v0 v1 : Nat) (h : 8 < chip.ngpio) (h2 : chip.ngpio < 24)
    (hB : chip.chip_type = PCA957X_TYPE) (hv0 : val[0]? = some v0) (hv1 : val[1]? = some v1) :
    pca953x_write_regs bus chip log reg val =
      some (
        if (bus log (Txn.write_byte_data ((reg <<< 1) % 256) v0)).ret < 0 then
          ((bus log (Txn.write_byte_data ((reg <<< 1) % 256) v0)).ret,
           log ++ [Event.i2c (Txn.write_byte_data ((reg <<< 1) % 256) v0)
                     (bus log (Txn.write_byte_data ((reg <<< 1) % 256) v0))])
        else
          (if (bus (log ++ [Event.i2c (Txn.write_byte_data ((reg <<< 1) % 256) v0)
                     (bus log (Txn.write_byte_data ((reg <<< 1) % 256) v0))])
                (Txn.write_byte_data (((reg <<< 1) + 1) % 256) v1)).ret < 0
           then (bus (log ++ [Event.i2c (Txn.write_byte_data ((reg <<< 1) % 256) v0)
                     (bus log (Txn.write_byte_data ((reg <<< 1) % 256) v0))])
                (Txn.write_byte_data (((reg <<< 1) + 1) % 256) v1)).ret
           else 0,
           log ++ [Event.i2c (Txn.write_byte_data ((reg <<< 1) % 256) v0)
                     (bus log (Txn.write_byte_data ((reg <<< 1) % 256) v0)),
                   Event.i2c (Txn.write_byte_data (((reg <<< 1) + 1) % 256) v1)
                     (bus (log ++ [Event.i2c (Txn.write_byte_data ((reg <<< 1) % 256) v0)
                       (bus log (Txn.write_byte_data ((reg <<< 1) % 256) v0))])
                     (Txn.write_byte_data (((reg <<< 1) + 1) % 256) v1))])) := by
  unfold pca953x_write_regs
  have h8 : ¬ chip.ngpio ≤ 8 := by omega
  have h24 : ¬ chip.ngpio ≥ 24 := by omega
  have hne : ¬ (PCA957X_TYPE = PCA953X_TYPE) := by decide
  simp only [h8, h24, hB, hne, if_false, if_true, i2c_smbus, hv0, hv1, Option.map_some',
    Option.some_bind]
  split_ifs <;> simp <;> intro _ <;> omega

/-! ## Lemmas on the store functions -/

theorem to_ssize_t_small (count : Nat) (h : count < 9223372036854775808) :
    to_ssize_t count = (count : Int) := by
  unfold to_ssize_t
  have hm : count % 18446744073709551616 = count := Nat.mod_eq_of_lt (by omega)
  rw [hm, if_pos h]

theorem to_ssize_t_wraps :
    to_ssize_t 9223372036854775808 = -9223372036854775808 ∧
    to_ssize_t 18446744073709551615 = -1 := by
  decide

theorem memset_some (val : List Nat) (c : Int) (n : Nat) (h : n ≤ val.length) :
    ∃ v : List Nat, memset val c n = some v ∧ v.length = val.length := by
  refine ⟨List.replicate n (to_u8 c) ++ val.drop n, ?_, ?_⟩
  · simp [memset, store_bytes, h]
  · simp; omega

theorem nbank_le (chip : pca953x_chip) (hn : chip.ngpio ≤ MAX_BANK * BANK_SZ) :
    NBANK chip ≤ MAX_BANK := by
  simp only [MAX_BANK, BANK_SZ, NBANK] at *
  omega

theorem read_regs_total (bus : Bus) (chip : pca953x_chip) (log : List Event) (reg : Nat)
    (val : List Nat) (hval : val.length = MAX_BANK) (hn : chip.ngpio ≤ MAX_BANK * BANK_SZ)
    (hbus : block_read_ok bus) :
    ∃ (ret : Int) (out : List Nat) (t : Txn),
      pca953x_read_regs bus chip log reg val = some (ret, out, log ++ [Event.i2c t (bus log t)]) := by
  have hM : MAX_BANK = 5 := rfl
  by_cases h8 : chip.ngpio ≤ 8
  · exact ⟨_, _, _, read_regs_byte bus chip log reg val h8 (by omega)⟩
  · by_cases h24 : chip.ngpio < 24
    · exact ⟨_, _, _, read_regs_word bus chip log reg val (by omega) h24 (by omega)⟩
    · have hb := (hbus log (((reg <<< bank_shift chip.ngpio) ||| REG_ADDR_AI) % 256)
        (NBANK chip % 256)).1
      have hnb := nbank_le chip hn
      have hmod : NBANK chip % 256 ≤ NBANK chip := Nat.mod_le _ _
      exact ⟨_, _, _, read_regs_block bus chip log reg val (by omega) (by omega)⟩

theorem write_regs_total (bus : Bus) (chip : pca953x_chip) (log : List Event) (reg : Nat)
    (val : List Nat) (hval : val.length = MAX_BANK) (hn : chip.ngpio ≤ MAX_BANK * BANK_SZ) :
    ∃ (ret : Int) (log' : List Event),
      pca953x_write_regs bus chip log reg val = some (ret, log') := by
  have hM : MAX_BANK = 5 := rfl
  have h0 : val[0]? = some val[0] := List.getElem?_eq_getElem (by omega)
  have h1 : val[1]? = some val[1] := List.getElem?_eq_getElem (by omega)
  by_cases h8 : chip.ngpio ≤ 8
  · exact ⟨_, _, write_regs_byte bus chip log reg val _ h8 h0⟩
  · by_cases h24 : chip.ngpio < 24
    · by_cases hA : chip.chip_type = PCA953X_TYPE
      · exact ⟨_, _, write_regs_word bus chip log reg val _ (by omega) h24 hA h0⟩
      · by_cases hB : chip.chip_type = PCA957X_TYPE
        · have hu := write_regs_two_bytes bus chip log reg val _ _ (by omega) h24 hB h0 h1
          rw [hu]
          split_ifs <;> exact ⟨_, _, rfl⟩
        · refine ⟨0, log, ?_⟩
          unfold pca953x_write_regs
          have h24b : ¬ chip.ngpio ≥ 24 := by omega
          simp [h8, h24b, hA, hB]
    · have hnb := nbank_le chip hn
      have hmod : NBANK chip % 256 ≤ NBANK chip := Nat.mod_le _ _
      exact ⟨_, _, write_regs_block bus chip log reg val (by omega) (by omega)⟩

theorem set_value_total (bus : Bus) (chip : pca953x_chip) (log : List Event) (off : Nat)
    (val : Int) (hlen : chip.reg_output.length = MAX_BANK) (hb : off / BANK_SZ < MAX_BANK) :
    ∃ (chip' : pca953x_chip) (log' : List Event),
      pca953x_gpio_set_value bus chip log off val = some (chip', log') ∧
      chip'.ngpio = chip.ngpio := by
  obtain ⟨cur, hcur⟩ := shadow_byte_exists _ _ hlen hb
  refine ⟨_, _, set_value_unfold bus chip log off val cur hcur, ?_⟩
  split_ifs <;> rfl

theorem Direction_store_returns_count (bus : Bus) (d : Driver) (stack : List Nat)
    (scanned : Option Int) (count : Nat) (hstack : stack.length = MAX_BANK)
    (hn : d.my_chip.ngpio ≤ MAX_BANK * BANK_SZ) (hbus : block_read_ok bus) :
    ∃ d' : Driver, Direction_store bus d stack scanned count = some (to_ssize_t count, d') := by
  obtain ⟨v, hv, hvl⟩ := memset_some stack (sscanf_int scanned d.Direction) (NBANK d.my_chip)
    (by rw [hstack]; exact nbank_le _ hn)
  obtain ⟨ret, log1, hw⟩ := write_regs_total bus d.my_chip d.log PCA953X_DIRECTION v
    (by rw [hvl, hstack]) hn
  obtain ⟨ret2, out, t, hr⟩ := read_regs_total bus d.my_chip log1 PCA953X_DIRECTION
    (List.replicate MAX_BANK 0) (by simp) hn hbus
  exact ⟨{ d with Direction := sscanf_int scanned d.Direction,
                   log := log1 ++ [Event.i2c t (bus log1 t)] },
    by simp [Direction_store, hv, hw, hr]⟩

theorem Output_store_returns_count (bus : Bus) (d : Driver) (stack : List Nat)
    (scanned : Option Int) (count : Nat) (hstack : stack.length = MAX_BANK)
    (hlen : d.my_chip.reg_output.length = MAX_BANK)
    (hn : d.my_chip.ngpio ≤ MAX_BANK * BANK_SZ) (hbus : block_read_ok bus)
    (hb : to_u32 (sscanf_int scanned d.Output) / BANK_SZ < MAX_BANK) :
    ∃ (chip' : pca953x_chip) (log1 : List Event) (t : Txn),
      pca953x_gpio_set_value bus d.my_chip d.log (to_u32 (sscanf_int scanned d.Output)) 1 =
        some (chip', log1) ∧
      Output_store bus d stack scanned count =
        some (to_ssize_t count,
              { d with my_chip := chip', Output := sscanf_int scanned d.Output,
                       log := log1 ++ [Event.i2c t (bus log1 t)] }) := by
  obtain ⟨v, hv, -⟩ := memset_some stack (sscanf_int scanned d.Output) (NBANK d.my_chip)
    (by rw [hstack]; exact nbank_le _ hn)
  obtain ⟨chip', log1, hs, hng⟩ := set_value_total bus d.my_chip d.log _ 1 hlen hb
  obtain ⟨ret2, out, t, hr⟩ := read_regs_total bus chip' log1 PCA953X_OUTPUT
    (List.replicate MAX_BANK 0) (by simp) (by rw [hng]; exact hn) hbus
  exact ⟨chip', log1, t, hs, by simp [Output_store, hv, hs, hr]⟩

theorem Invert_Output_store_returns_count (bus : Bus) (d : Driver) (stack : List Nat)
    (scanned : Option Int) (count : Nat) (hstack : stack.length = MAX_BANK)
    (hlen : d.my_chip.reg_output.length = MAX_BANK)
    (hn : d.my_chip.ngpio ≤ MAX_BANK * BANK_SZ) (hbus : block_read_ok bus)
    (hb : to_u32 (sscanf_int scanned d.Invert_Output) / BANK_SZ < MAX_BANK) :
    ∃ (chip' : pca953x_chip) (log1 : List Event) (t : Txn),
      pca953x_gpio_set_value bus d.my_chip d.log
          (to_u32 (sscanf_int scanned d.Invert_Output)) 0 = some (chip', log1) ∧
      Invert_Output_store bus d stack scanned count =
        some (to_ssize_t count,
              { d with my_chip := chip', Invert_Output := sscanf_int scanned d.Invert_Output,
                       log := log1 ++ [Event.i2c t (bus log1 t)] }) := by
  obtain ⟨v, hv, -⟩ := memset_some stack (sscanf_int scanned d.Invert_Output) (NBANK d.my_chip)
    (by rw [hstack]; exact nbank_le _ hn)
  obtain ⟨chip', log1, hs, hng⟩ := set_value_total bus d.my_chip d.log _ 0 hlen hb
  obtain ⟨ret2, out, t, hr⟩ := read_regs_total bus chip' log1 PCA953X_OUTPUT
    (List.replicate MAX_BANK 0) (by simp) (by rw [hng]; exact hn) hbus
  exact ⟨chip', log1, t, hs, by simp [Invert_Output_store, hv, hs, hr]⟩

theorem devBus_block_read_ok : block_read_ok devBus := by
  intro log c n
  simp [devBus]

theorem failBus_block_read_ok : block_read_ok failBus := by
  intro log c n
  simp [failBus]

/-! ## Claims C5 to C10 -/

/-- C5, refuted: on the 8-pin chip `chip8` the pin index 8 is not below the
pin count, yet `pca953x_gpio_set_value(8, 1)` issues a byte write (at address
2) and changes `reg_output[1]`; `Output_store` given the index 8 does the same
and returns `count`. -/
theorem set_value_accepts_index_beyond_pin_count :
    chip8.ngpio ≤ 8 ∧
    pca953x_gpio_set_value okBus chip8 [] 8 1 =
      some ({ chip8 with reg_output := [0xFF, 1, 0, 0, 0] },
            [Event.mutex_lock, Event.i2c (Txn.write_byte_data 2 1) ⟨0, []⟩,
             Event.mutex_unlock]) ∧
    Output_store okBus ⟨chip8, 0, 0, 0, []⟩ [0, 0, 0, 0, 0] (some 8) 2 =
      some (2, ⟨{ chip8 with reg_output := [0xFF, 1, 0, 0, 0] }, 0, 8, 0,
            [Event.mutex_lock, Event.i2c (Txn.write_byte_data 2 1) ⟨0, []⟩,
             Event.mutex_unlock, Event.i2c (Txn.read_byte_data 1) ⟨0, []⟩]⟩) := by
  decide

/-- C5, amended: no pin index is rejected.  For a chip of at most 40 pins and
a user-supplied index `x`, below the pin count or not, whose bank `i / 8`
(`i` being `x` as `unsigned int`) lies inside the shadow array,
`pca953x_gpio_set_value(i, v)` takes the lock, issues one byte write at
`((R << bank_shift) + i / 8) mod 256`, `R` being the output register number
chosen from `chip_type`, stores the new byte in `reg_output[i / 8]` if the
write succeeded and leaves the chip as it was if not; `Output_store` and
`Invert_Output_store` run that call with level 1 and 0, add their read, and
return their `size_t` argument `count` converted to `ssize_t`, which is
`count` itself below `2 ^ 63`. -/
theorem set_value_no_index_check (bus : Bus) (d : Driver) (stack : List Nat) (x : Int)
    (count : Nat) (hstack : stack.length = MAX_BANK)
    (hlen : d.my_chip.reg_output.length = MAX_BANK)
    (hn : d.my_chip.ngpio ≤ MAX_BANK * BANK_SZ) (hbus : block_read_ok bus)
    (hb : to_u32 x / BANK_SZ < MAX_BANK) :
    ∃ cur : Nat, d.my_chip.reg_output[to_u32 x / BANK_SZ]? = some cur ∧
      (∀ v : Int, ∃ (t : Txn) (chip' : pca953x_chip),
        t = Txn.write_byte_data
              (((output_offset d.my_chip.chip_type <<< bank_shift d.my_chip.ngpio)
                + to_u32 x / BANK_SZ) % 256)
              (set_value_reg_val cur (to_u32 x) v) ∧
        pca953x_gpio_set_value bus d.my_chip d.log (to_u32 x) v =
          some (chip', d.log ++ [Event.mutex_lock,
                                 Event.i2c t (bus (d.log ++ [Event.mutex_lock]) t),
                                 Event.mutex_unlock]) ∧
        (0 ≤ (bus (d.log ++ [Event.mutex_lock]) t).ret →
          chip' = { d.my_chip with
                    reg_output := d.my_chip.reg_output.set (to_u32 x / BANK_SZ)
                      (set_value_reg_val cur (to_u32 x) v) }) ∧
        ((bus (d.log ++ [Event.mutex_lock]) t).ret < 0 → chip' = d.my_chip)) ∧
      (∃ (chip' : pca953x_chip) (log1 : List Event) (t : Txn),
        pca953x_gpio_set_value bus d.my_chip d.log (to_u32 x) 1 = some (chip', log1) ∧
        Output_store bus d stack (some x) count =
          some (to_ssize_t count,
                { d with my_chip := chip', Output := x,
                         log := log1 ++ [Event.i2c t (bus log1 t)] })) ∧
      (∃ (chip' : pca953x_chip) (log1 : List Event) (t : Txn),
        pca953x_gpio_set_value bus d.my_chip d.log (to_u32 x) 0 = some (chip', log1) ∧
        Invert_Output_store bus d stack (some x) count =
          some (to_ssize_t count,
                { d with my_chip := chip', Invert_Output := x,
                         log := log1 ++ [Event.i2c t (bus log1 t)] })) ∧
      (count < 9223372036854775808 → to_ssize_t count = (count : Int)) := by
  obtain ⟨cur, hcur⟩ := shadow_byte_exists _ _ hlen hb
  refine ⟨cur, hcur, ?_, ?_, ?_, to_ssize_t_small count⟩
  · intro v
    have hu := set_value_unfold bus d.my_chip d.log (to_u32 x) v cur hcur
    simp only [set_value_txn, Nat.mod_eq_of_lt (reg_val_lt cur (to_u32 x) v)] at hu
    refine ⟨_, _, rfl, hu, ?_, ?_⟩
    · intro hok
      rw [if_neg (by omega)]
    · intro hfail
      rw [if_pos hfail]
  · exact Output_store_returns_count bus d stack (some x) count hstack hlen hn hbus hb
  · exact Invert_Output_store_returns_count bus d stack (some x) count hstack hlen hn hbus hb

/-- An instance: the index 8 on the 8-pin chip `chip8`, an index that is not
below the pin count. -/
theorem set_value_no_index_check_witness :
    ([0, 0, 0, 0, 0].length = MAX_BANK ∧ chip8.reg_output.length = MAX_BANK ∧
      chip8.ngpio ≤ MAX_BANK * BANK_SZ ∧ block_read_ok devBus ∧
      chip8.ngpio ≤ to_u32 8 ∧ to_u32 8 / BANK_SZ < MAX_BANK) ∧
    ∃ cur : Nat, chip8.reg_output[to_u32 8 / BANK_SZ]? = some cur ∧
      (∀ v : Int, ∃ (t : Txn) (chip' : pca953x_chip),
        t = Txn.write_byte_data
              (((output_offset chip8.chip_type <<< bank_shift chip8.ngpio)
                + to_u32 8 / BANK_SZ) % 256)
              (set_value_reg_val cur (to_u32 8) v) ∧
        pca953x_gpio_set_value devBus chip8 [] (to_u32 8) v =
          some (chip', [] ++ [Event.mutex_lock,
                                 Event.i2c t (devBus ([] ++ [Event.mutex_lock]) t),
                                 Event.mutex_unlock]) ∧
        (0 ≤ (devBus ([] ++ [Event.mutex_lock]) t).ret →
          chip' = { chip8 with
                    reg_output := chip8.reg_output.set (to_u32 8 / BANK_SZ)
                      (set_value_reg_val cur (to_u32 8) v) }) ∧
        ((devBus ([] ++ [Event.mutex_lock]) t).ret < 0 → chip' = chip8)) ∧
      (∃ (chip' : pca953x_chip) (log1 : List Event) (t : Txn),
        pca953x_gpio_set_value devBus chip8 [] (to_u32 8) 1 = some (chip', log1) ∧
        Output_store devBus ⟨chip8, 0, 0, 0, []⟩ [0, 0, 0, 0, 0] (some 8) 2 =
          some (to_ssize_t 2,
                { (⟨chip8, 0, 0, 0, []⟩ : Driver) with
                    my_chip := chip', Output := 8,
                    log := log1 ++ [Event.i2c t (devBus log1 t)] })) ∧
      (∃ (chip' : pca953x_chip) (log1 : List Event) (t : Txn),
        pca953x_gpio_set_value devBus chip8 [] (to_u32 8) 0 = some (chip', log1) ∧
        Invert_Output_store devBus ⟨chip8, 0, 0, 0, []⟩ [0, 0, 0, 0, 0] (some 8) 2 =
          some (to_ssize_t 2,
                { (⟨chip8, 0, 0, 0, []⟩ : Driver) with
                    my_chip := chip', Invert_Output := 8,
                    log := log1 ++ [Event.i2c t (devBus log1 t)] })) ∧
      ((2 : Nat) < 9223372036854775808 → to_ssize_t 2 = ((2 : Nat) : Int)) :=
  ⟨⟨by decide, by decide, by decide, devBus_block_read_ok, by decide, by decide⟩,
   set_value_no_index_check devBus ⟨chip8, 0, 0, 0, []⟩ [0, 0, 0, 0, 0] 8 2 (by decide)
     (by decide) (by decide) devBus_block_read_ok (by decide)⟩

/-- C6, refuted: on `chip8` the three store functions return the same result,
`count = 2`, on a bus where every transaction fails and on a bus where every
transaction succeeds; for `Output_store` the failed write is in the log, the
shadow is not updated, and the caller still gets `2`. -/
theorem store_result_same_on_failure :
    (Output_store failBus ⟨chip8, 0, 0, 0, []⟩ [0, 0, 0, 0, 0] (some 3) 2).map Prod.fst =
      (Output_store okBus ⟨chip8, 0, 0, 0, []⟩ [0, 0, 0, 0, 0] (some 3) 2).map Prod.fst ∧
    (Invert_Output_store failBus ⟨chip8, 0, 0, 0, []⟩ [0, 0, 0, 0, 0] (some 3) 2).map Prod.fst =
      (Invert_Output_store okBus ⟨chip8, 0, 0, 0, []⟩ [0, 0, 0, 0, 0] (some 3) 2).map Prod.fst ∧
    (Direction_store failBus ⟨chip8, 0, 0, 0, []⟩ [0, 0, 0, 0, 0] (some 0) 2).map Prod.fst =
      (Direction_store okBus ⟨chip8, 0, 0, 0, []⟩ [0, 0, 0, 0, 0] (some 0) 2).map Prod.fst ∧
    Invert_Output_store failBus ⟨chip8, 0, 0, 0, []⟩ [0, 0, 0, 0, 0] (some 3) 2 =
      some (2, ⟨chip8, 0, 0, 3,
            [Event.mutex_lock, Event.i2c (Txn.write_byte_data 1 0xF7) ⟨-5, []⟩,
             Event.mutex_unlock, Event.i2c (Txn.read_byte_data 1) ⟨-5, []⟩]⟩) ∧
    Invert_Output_store okBus ⟨chip8, 0, 0, 0, []⟩ [0, 0, 0, 0, 0] (some 3) 2 =
      some (2, ⟨{ chip8 with reg_output := [0xF7, 0, 0, 0, 0] }, 0, 0, 3,
            [Event.mutex_lock, Event.i2c (Txn.write_byte_data 1 0xF7) ⟨0, []⟩,
             Event.mutex_unlock, Event.i2c (Txn.read_byte_data 1) ⟨0, []⟩]⟩) := by
  decide

/-- C6, amended: the result the entry points return does not depend on the
transport.  For a chip of at most 40 pins, `Direction_store` returns its
`size_t` argument `count` converted to `ssize_t` (`count` itself below
`2 ^ 63`) on every bus and for every scanned value, and so do `Output_store`
and `Invert_Output_store` for every scanned index whose bank lies inside the
shadow array.  The transfer routine `pca953x_write_single` is where the two
outcomes differ: it returns the negative value of the transport when its
write fails and `0` when it succeeds. -/
theorem store_returns_count_on_every_bus (bus : Bus) (d : Driver) (stack : List Nat)
    (sD sO sI : Option Int) (count : Nat) (hstack : stack.length = MAX_BANK)
    (hlen : d.my_chip.reg_output.length = MAX_BANK)
    (hn : d.my_chip.ngpio ≤ MAX_BANK * BANK_SZ) (hbus : block_read_ok bus)
    (hO : to_u32 (sscanf_int sO d.Output) / BANK_SZ < MAX_BANK)
    (hI : to_u32 (sscanf_int sI d.Invert_Output) / BANK_SZ < MAX_BANK) :
    (∃ d' : Driver, Direction_store bus d stack sD count = some (to_ssize_t count, d')) ∧
    (∃ d' : Driver, Output_store bus d stack sO count = some (to_ssize_t count, d')) ∧
    (∃ d' : Driver, Invert_Output_store bus d stack sI count = some (to_ssize_t count, d')) ∧
    (count < 9223372036854775808 → to_ssize_t count = (count : Int)) ∧
    (∀ (chip : pca953x_chip) (log : List Event) (reg val off : Nat),
      ∃ t : Txn,
        t = Txn.write_byte_data (((reg <<< bank_shift chip.ngpio) + off / BANK_SZ) % 256)
              (val % 256) ∧
        pca953x_write_single bus chip log reg val off =
          (if (bus log t).ret < 0 then (bus log t).ret else 0,
           log ++ [Event.i2c t (bus log t)])) := by
  refine ⟨Direction_store_returns_count bus d stack sD count hstack hn hbus, ?_, ?_,
    to_ssize_t_small count, ?_⟩
  · obtain ⟨chip', log1, t, -, h⟩ :=
      Output_store_returns_count bus d stack sO count hstack hlen hn hbus hO
    exact ⟨_, h⟩
  · obtain ⟨chip', log1, t, -, h⟩ :=
      Invert_Output_store_returns_count bus d stack sI count hstack hlen hn hbus hI
    exact ⟨_, h⟩
  · intro chip log reg val off
    refine ⟨_, rfl, ?_⟩
    simp only [pca953x_write_single, i2c_smbus]
    split_ifs <;> rfl

/-- An instance: the chip `chip8` on a bus where every transaction fails, with
the direction value 255 and the scanned pin indices 3 and 5. -/
theorem store_returns_count_on_every_bus_witness :
    ([0, 0, 0, 0, 0].length = MAX_BANK ∧ chip8.reg_output.length = MAX_BANK ∧
      chip8.ngpio ≤ MAX_BANK * BANK_SZ ∧ block_read_ok failBus ∧
      to_u32 (sscanf_int (some 3) 0) / BANK_SZ < MAX_BANK ∧
      to_u32 (sscanf_int (some 5) 0) / BANK_SZ < MAX_BANK) ∧
    (∃ d' : Driver, Direction_store failBus ⟨chip8, 0, 0, 0, []⟩ [0, 0, 0, 0, 0] (some 255) 2 =
      some (to_ssize_t 2, d')) ∧
    (∃ d' : Driver, Output_store failBus ⟨chip8, 0, 0, 0, []⟩ [0, 0, 0, 0, 0] (some 3) 2 =
      some (to_ssize_t 2, d')) ∧
    (∃ d' : Driver,
      Invert_Output_store failBus ⟨chip8, 0, 0, 0, []⟩ [0, 0, 0, 0, 0] (some 5) 2 =
        some (to_ssize_t 2, d')) ∧
    ((2 : Nat) < 9223372036854775808 → to_ssize_t 2 = ((2 : Nat) : Int)) ∧
    (∀ (chip : pca953x_chip) (log : List Event) (reg val off : Nat),
      ∃ t : Txn,
        t = Txn.write_byte_data (((reg <<< bank_shift chip.ngpio) + off / BANK_SZ) % 256)
              (val % 256) ∧
        pca953x_write_single failBus chip log reg val off =
          (if (failBus log t).ret < 0 then (failBus log t).ret else 0,
           log ++ [Event.i2c t (failBus log t)])) :=
  ⟨⟨by decide, by decide, by decide, failBus_block_read_ok, by decide, by decide⟩,
   store_returns_count_on_every_bus failBus ⟨chip8, 0, 0, 0, []⟩ [0, 0, 0, 0, 0] (some 255)
     (some 3) (some 5) 2 (by decide) (by decide) (by decide) failBus_block_read_ok (by decide)
     (by decide)⟩

/-- C7, evaluated: on the 16-pin layout-A chip `chip16A`, writing the two
bytes `0x12, 0x34` to the direction register issues one word write at
`3 << 1 = 6` whose word is `0x0012`: the cast `(u16) *val` of line 204 takes
the first byte only, and the little-endian word `0x12 + 256 * 0x34 = 0x3412`
is not what is sent. -/
theorem write_regs_word_drops_second_byte :
    pca953x_write_regs okBus chip16A [] PCA953X_DIRECTION [0x12, 0x34, 0, 0, 0] =
      some (0, [Event.i2c (Txn.write_word_data 6 0x12) ⟨0, []⟩]) ∧
    pca953x_write_regs okBus chip16A [] PCA953X_DIRECTION [0x12, 0x34, 0, 0, 0] ≠
      some (0, [Event.i2c (Txn.write_word_data 6 (0x12 + 256 * 0x34)) ⟨0, []⟩]) := by
  decide

theorem to_u16_lt (x : Int) : to_u16 x < 65536 := by
  unfold to_u16
  have h1 : 0 ≤ x % 65536 := Int.emod_nonneg _ (by norm_num)
  have h2 : x % 65536 < 65536 := Int.emod_lt_of_pos _ (by norm_num)
  omega

theorem low_byte (w : Nat) : w &&& 0xFF = w % 256 := by
  have h : (0xFF : Nat) = 2 ^ 8 - 1 := by norm_num
  rw [h, Nat.and_pow_two_sub_one_eq_mod]

theorem high_byte (w : Nat) (h : w < 65536) : (w >>> 8) % 256 = w / 256 := by
  rw [Nat.shiftRight_eq_div_pow]
  apply Nat.mod_eq_of_lt
  norm_num
  omega

theorem ai_address (n reg : Nat) (hn : n = 24 ∨ n = 40) (hreg : reg ≤ 7) :
    ((reg <<< bank_shift n) ||| REG_ADDR_AI) % 256 = (reg <<< bank_shift n) ||| 0x80 := by
  obtain ⟨-, -, -, h24, h40⟩ := bank_shift_table
  apply Nat.mod_eq_of_lt
  have h256 : (256 : Nat) = 2 ^ 8 := by norm_num
  rw [h256]
  apply Nat.or_lt_two_pow
  · rcases hn with h | h <;> subst h <;> simp only [h24, h40, Nat.shiftLeft_eq] <;> omega
  · simp [REG_ADDR_AI]

theorem nbank_supported (chip : pca953x_chip) (hn : chip.ngpio = 24 ∨ chip.ngpio = 40) :
    NBANK chip % 256 = bank_count chip.ngpio := by
  unfold NBANK bank_count BANK_SZ
  rcases hn with h | h <;> rw [h]

/-- C8: on a chip with a supported pin count, for a register number `reg` in
`0..7`, `pca953x_read_regs` issues exactly one transport read: for
`pin_count <= 8` a byte read at address `reg`; for `8 < pin_count < 24` a word
read at `reg << 1`, stored as low byte then high byte; for `pin_count >= 24` a
block read of `ceil(pin_count / 8)` bytes at `(reg << bank_shift) | 0x80`.
When the read succeeds, exactly the first `ceil(pin_count / 8)` bytes of the
buffer are replaced.  The buffer is the `MAX_BANK`-byte array the callers
pass, and the bus keeps the block-read contract `block_read_ok`. -/
theorem read_regs_shape (bus : Bus) (chip : pca953x_chip) (log : List Event) (reg : Nat)
    (val : List Nat) (hsup : supported chip.ngpio) (hreg : reg ≤ 7)
    (hval : val.length = MAX_BANK) (hbus : block_read_ok bus) :
    ∃ (t : Txn) (out : List Nat),
      pca953x_read_regs bus chip log reg val =
        some (if (bus log t).ret < 0 then (bus log t).ret else 0, out,
              log ++ [Event.i2c t (bus log t)]) ∧
      (chip.ngpio ≤ 8 →
        t = Txn.read_byte_data reg ∧ out = to_u8 (bus log t).ret :: val.drop 1) ∧
      (8 < chip.ngpio → chip.ngpio < 24 →
        t = Txn.read_word_data (reg <<< 1) ∧
        out = (to_u16 (bus log t).ret % 256) :: (to_u16 (bus log t).ret / 256) :: val.drop 2) ∧
      (24 ≤ chip.ngpio →
        t = Txn.read_i2c_block_data ((reg <<< bank_shift chip.ngpio) ||| 0x80)
              (bank_count chip.ngpio) ∧
        out = (bus log t).block ++ val.drop (bus log t).block.length) ∧
      (0 ≤ (bus log t).ret →
        out.length = val.length ∧
        ∃ bytes : List Nat, bytes.length = bank_count chip.ngpio ∧
          out = bytes ++ val.drop (bank_count chip.ngpio)) := by
  have hM : MAX_BANK = 5 := rfl
  by_cases h8 : chip.ngpio ≤ 8
  · have hbc : bank_count chip.ngpio = 1 := by
      unfold bank_count; rcases hsup with h | h | h | h | h <;> omega
    have hr : reg % 256 = reg := Nat.mod_eq_of_lt (by omega)
    have hu := read_regs_byte bus chip log reg val h8 (by omega)
    rw [hr] at hu
    refine ⟨_, _, hu, fun _ => ⟨rfl, rfl⟩, fun h => absurd h8 (by omega),
      fun h => absurd h8 (by omega), fun _ => ⟨?_, [to_u8 (bus log (Txn.read_byte_data reg)).ret], hbc.symm, ?_⟩⟩
    · simp; omega
    · rw [hbc]; rfl
  · by_cases h24 : chip.ngpio < 24
    · have h16 : chip.ngpio = 16 := by rcases hsup with h | h | h | h | h <;> omega
      have hbc : bank_count chip.ngpio = 2 := by unfold bank_count; omega
      have hr : (reg <<< 1) % 256 = reg <<< 1 := by
        apply Nat.mod_eq_of_lt; rw [Nat.shiftLeft_eq]; omega
      have hu := read_regs_word bus chip log reg val (by omega) h24 (by omega)
      rw [hr] at hu
      rw [low_byte, high_byte _ (to_u16_lt _)] at hu
      refine ⟨_, _, hu, fun h => absurd h h8, fun _ _ => ⟨rfl, rfl⟩,
        fun h => absurd h24 (by omega), fun _ => ⟨?_, [to_u16 (bus log (Txn.read_word_data (reg <<< 1))).ret % 256,
          to_u16 (bus log (Txn.read_word_data (reg <<< 1))).ret / 256], hbc.symm, ?_⟩⟩
      · simp; omega
      · rw [hbc]; rfl
    · have hn : chip.ngpio = 24 ∨ chip.ngpio = 40 := by
        rcases hsup with h | h | h | h | h <;> omega
      have hbc5 : bank_count chip.ngpio ≤ 5 := by
        unfold bank_count; rcases hn with h | h <;> omega
      have hb := hbus log ((reg <<< bank_shift chip.ngpio) ||| 0x80) (bank_count chip.ngpio)
      have hu := read_regs_block bus chip log reg val (by omega)
        (by rw [ai_address _ _ hn hreg, nbank_supported _ hn]; omega)
      simp only [ai_address _ _ hn hreg, nbank_supported _ hn] at hu
      refine ⟨_, _, hu, fun h => absurd h h8, fun _ h => absurd h h24, fun _ => ⟨rfl, rfl⟩,
        fun hok => ⟨?_, _, hb.2 hok, ?_⟩⟩
      · simp; omega
      · rw [hb.2 hok]

/-- An instance: the input register of the 40-pin chip `chip40`, read by one
5-byte block read at `0x80`; pin 37 is bit 5 of byte 4. -/
theorem read_regs_shape_witness :
    (supported chip40.ngpio ∧ PCA953X_INPUT ≤ 7 ∧ [0, 0, 0, 0, 0].length = MAX_BANK ∧
      block_read_ok devBus) ∧
    (∃ (t : Txn) (out : List Nat),
      pca953x_read_regs devBus chip40 [] PCA953X_INPUT [0, 0, 0, 0, 0] =
        some (if (devBus [] t).ret < 0 then (devBus [] t).ret else 0, out,
              [] ++ [Event.i2c t (devBus [] t)]) ∧
      (chip40.ngpio ≤ 8 →
        t = Txn.read_byte_data PCA953X_INPUT ∧
        out = to_u8 (devBus [] t).ret :: [0, 0, 0, 0, 0].drop 1) ∧
      (8 < chip40.ngpio → chip40.ngpio < 24 →
        t = Txn.read_word_data (PCA953X_INPUT <<< 1) ∧
        out = (to_u16 (devBus [] t).ret % 256) :: (to_u16 (devBus [] t).ret / 256) ::
          [0, 0, 0, 0, 0].drop 2) ∧
      (24 ≤ chip40.ngpio →
        t = Txn.read_i2c_block_data ((PCA953X_INPUT <<< bank_shift chip40.ngpio) ||| 0x80)
              (bank_count chip40.ngpio) ∧
        out = (devBus [] t).block ++ [0, 0, 0, 0, 0].drop (devBus [] t).block.length) ∧
      (0 ≤ (devBus [] t).ret →
        out.length = [0, 0, 0, 0, 0].length ∧
        ∃ bytes : List Nat, bytes.length = bank_count chip40.ngpio ∧
          out = bytes ++ [0, 0, 0, 0, 0].drop (bank_count chip40.ngpio))) ∧
    pca953x_read_regs devBus chip40 [] PCA953X_INPUT [0, 0, 0, 0, 0] =
      some (0, [0xA5, 0xA5, 0xA5, 0xA5, 0xA5],
            [Event.i2c (Txn.read_i2c_block_data 0x80 5) ⟨5, [0xA5, 0xA5, 0xA5, 0xA5, 0xA5]⟩]) ∧
    37 / BANK_SZ = 4 ∧ 37 % BANK_SZ = 5 :=
  ⟨⟨by decide, by decide, by decide, devBus_block_read_ok⟩,
   read_regs_shape devBus chip40 [] PCA953X_INPUT [0, 0, 0, 0, 0] (by decide) (by decide)
     (by decide) devBus_block_read_ok,
   by decide, by decide, by decide⟩

/-- C9: on a chip with a supported pin count, for a register number `reg` in
`0..7` and a byte array `val` holding at least `ceil(pin_count / 8)` bytes,
`pca953x_write_regs` issues exactly one transport write when
`pin_count <= 8` or `pin_count >= 24`: for `pin_count <= 8` a byte write of
`val[0]` at the bare address `reg`; for `pin_count >= 24`, whatever the
layout, a block write of the `ceil(pin_count / 8)` bytes
`val[0 .. bank_count)` at address `(reg << bank_shift) | 0x80`. -/
theorem write_regs_shape (bus : Bus) (chip : pca953x_chip) (log : List Event) (reg : Nat)
    (val : List Nat) (hsup : supported chip.ngpio) (hreg : reg ≤ 7)
    (hval : bank_count chip.ngpio ≤ val.length) :
    (chip.ngpio ≤ 8 →
      ∃ v0 : Nat, val[0]? = some v0 ∧
        pca953x_write_regs bus chip log reg val =
          some (if (bus log (Txn.write_byte_data reg v0)).ret < 0
                  then (bus log (Txn.write_byte_data reg v0)).ret else 0,
                log ++ [Event.i2c (Txn.write_byte_data reg v0)
                          (bus log (Txn.write_byte_data reg v0))])) ∧
    (24 ≤ chip.ngpio →
      (val.take (bank_count chip.ngpio)).length = bank_count chip.ngpio ∧
      pca953x_write_regs bus chip log reg val =
        some (if (bus log (Txn.write_i2c_block_data ((reg <<< bank_shift chip.ngpio) ||| 0x80)
                    (bank_count chip.ngpio) (val.take (bank_count chip.ngpio)))).ret < 0
                then (bus log (Txn.write_i2c_block_data
                    ((reg <<< bank_shift chip.ngpio) ||| 0x80)
                    (bank_count chip.ngpio) (val.take (bank_count chip.ngpio)))).ret
                else 0,
              log ++ [Event.i2c (Txn.write_i2c_block_data
                    ((reg <<< bank_shift chip.ngpio) ||| 0x80)
                    (bank_count chip.ngpio) (val.take (bank_count chip.ngpio)))
                  (bus log (Txn.write_i2c_block_data
                    ((reg <<< bank_shift chip.ngpio) ||| 0x80)
                    (bank_count chip.ngpio) (val.take (bank_count chip.ngpio))))])) := by
  constructor
  · intro h8
    have hbc : bank_count chip.ngpio = 1 := by
      unfold bank_count; rcases hsup with h | h | h | h | h <;> omega
    have hpos : 0 < val.length := by omega
    have hr : reg % 256 = reg := Nat.mod_eq_of_lt (by omega)
    have hu := write_regs_byte bus chip log reg val val[0] h8 (List.getElem?_eq_getElem hpos)
    rw [hr] at hu
    exact ⟨val[0], List.getElem?_eq_getElem hpos, hu⟩
  · intro h24
    have hn : chip.ngpio = 24 ∨ chip.ngpio = 40 := by
      rcases hsup with h | h | h | h | h <;> omega
    have hu := write_regs_block bus chip log reg val h24
      (by rw [nbank_supported _ hn]; exact hval)
    simp only [ai_address _ _ hn hreg, nbank_supported _ hn] at hu
    exact ⟨by simp [hval], hu⟩

/-- An instance: the direction register of the 40-pin chip `chip40` and the
bytes `1, 2, 3, 4, 5`, sent as one block write at `0x98`. -/
theorem write_regs_shape_witness :
    (supported chip40.ngpio ∧ PCA953X_DIRECTION ≤ 7 ∧
      bank_count chip40.ngpio ≤ [1, 2, 3, 4, 5].length) ∧
    ((chip40.ngpio ≤ 8 →
      ∃ v0 : Nat, [1, 2, 3, 4, 5][0]? = some v0 ∧
        pca953x_write_regs okBus chip40 [] PCA953X_DIRECTION [1, 2, 3, 4, 5] =
          some (if (okBus [] (Txn.write_byte_data PCA953X_DIRECTION v0)).ret < 0
                  then (okBus [] (Txn.write_byte_data PCA953X_DIRECTION v0)).ret else 0,
                [] ++ [Event.i2c (Txn.write_byte_data PCA953X_DIRECTION v0)
                          (okBus [] (Txn.write_byte_data PCA953X_DIRECTION v0))])) ∧
    (24 ≤ chip40.ngpio →
      ([1, 2, 3, 4, 5].take (bank_count chip40.ngpio)).length = bank_count chip40.ngpio ∧
      pca953x_write_regs okBus chip40 [] PCA953X_DIRECTION [1, 2, 3, 4, 5] =
        some (if (okBus [] (Txn.write_i2c_block_data
                    ((PCA953X_DIRECTION <<< bank_shift chip40.ngpio) ||| 0x80)
                    (bank_count chip40.ngpio)
                    ([1, 2, 3, 4, 5].take (bank_count chip40.ngpio)))).ret < 0
                then (okBus [] (Txn.write_i2c_block_data
                    ((PCA953X_DIRECTION <<< bank_shift chip40.ngpio) ||| 0x80)
                    (bank_count chip40.ngpio)
                    ([1, 2, 3, 4, 5].take (bank_count chip40.ngpio)))).ret
                else 0,
              [] ++ [Event.i2c (Txn.write_i2c_block_data
                    ((PCA953X_DIRECTION <<< bank_shift chip40.ngpio) ||| 0x80)
                    (bank_count chip40.ngpio)
                    ([1, 2, 3, 4, 5].take (bank_count chip40.ngpio)))
                  (okBus [] (Txn.write_i2c_block_data
                    ((PCA953X_DIRECTION <<< bank_shift chip40.ngpio) ||| 0x80)
                    (bank_count chip40.ngpio)
                    ([1, 2, 3, 4, 5].take (bank_count chip40.ngpio))))]))) ∧
    pca953x_write_regs okBus chip40 [] PCA953X_DIRECTION [1, 2, 3, 4, 5] =
      some (0, [Event.i2c (Txn.write_i2c_block_data 0x98 5 [1, 2, 3, 4, 5]) ⟨0, []⟩]) :=
  ⟨⟨by decide, by decide, by decide⟩,
   write_regs_shape okBus chip40 [] PCA953X_DIRECTION [1, 2, 3, 4, 5] (by decide) (by decide)
     (by decide),
   by decide⟩

/-- C10: on a 16-pin layout-B chip, for a register number `reg` in `0..7` and
bytes `b0, b1`, `pca953x_write_regs` first issues a byte write of `b0` at
`reg << 1`.  If that fails, nothing else is issued and its negative value is
returned.  Otherwise a byte write of `b1` at `(reg << 1) + 1` follows; its
negative value is returned if it fails, and `0` if both writes succeeded. -/
theorem write_regs_layoutB_two_writes (bus : Bus) (chip : pca953x_chip) (log : List Event)
    (reg b0 b1 : Nat) (rest : List Nat) (h16 : chip.ngpio = 16)
    (hB : chip.chip_type = PCA957X_TYPE) (hreg : reg ≤ 7) :
    ∃ (t1 t2 : Txn) (r1 r2 : Reply),
      t1 = Txn.write_byte_data (reg <<< 1) b0 ∧
      t2 = Txn.write_byte_data ((reg <<< 1) + 1) b1 ∧
      r1 = bus log t1 ∧
      r2 = bus (log ++ [Event.i2c t1 r1]) t2 ∧
      (r1.ret < 0 →
        pca953x_write_regs bus chip log reg (b0 :: b1 :: rest) =
          some (r1.ret, log ++ [Event.i2c t1 r1])) ∧
      (0 ≤ r1.ret → r2.ret < 0 →
        pca953x_write_regs bus chip log reg (b0 :: b1 :: rest) =
          some (r2.ret, log ++ [Event.i2c t1 r1, Event.i2c t2 r2])) ∧
      (0 ≤ r1.ret → 0 ≤ r2.ret →
        pca953x_write_regs bus chip log reg (b0 :: b1 :: rest) =
          some (0, log ++ [Event.i2c t1 r1, Event.i2c t2 r2])) := by
  have hr0 : (reg <<< 1) % 256 = reg <<< 1 := by
    apply Nat.mod_eq_of_lt; rw [Nat.shiftLeft_eq]; omega
  have hr1 : ((reg <<< 1) + 1) % 256 = (reg <<< 1) + 1 := by
    apply Nat.mod_eq_of_lt; rw [Nat.shiftLeft_eq]; omega
  have hu := write_regs_two_bytes bus chip log reg (b0 :: b1 :: rest) b0 b1 (by omega)
    (by omega) hB (by simp) (by simp)
  simp only [hr0, hr1] at hu
  refine ⟨_, _, _, _, rfl, rfl, rfl, rfl, ?_, ?_, ?_⟩
  · intro h1
    rw [hu, if_pos h1]
  · intro h1 h2
    rw [hu, if_neg (by omega), if_pos h2]
  · intro h1 h2
    rw [hu, if_neg (by omega), if_neg (by omega)]

/-- An instance: the output register of the layout-B chip `chip16B`, on a bus
where both writes succeed and on a bus where the first write fails. -/
theorem write_regs_layoutB_two_writes_witness :
    (chip16B.ngpio = 16 ∧ chip16B.chip_type = PCA957X_TYPE ∧ PCA957X_OUT ≤ 7) ∧
    (∃ (t1 t2 : Txn) (r1 r2 : Reply),
      t1 = Txn.write_byte_data (PCA957X_OUT <<< 1) 0x12 ∧
      t2 = Txn.write_byte_data ((PCA957X_OUT <<< 1) + 1) 0x34 ∧
      r1 = okBus [] t1 ∧
      r2 = okBus ([] ++ [Event.i2c t1 r1]) t2 ∧
      (r1.ret < 0 →
        pca953x_write_regs okBus chip16B [] PCA957X_OUT (0x12 :: 0x34 :: [0, 0, 0]) =
          some (r1.ret, [] ++ [Event.i2c t1 r1])) ∧
      (0 ≤ r1.ret → r2.ret < 0 →
        pca953x_write_regs okBus chip16B [] PCA957X_OUT (0x12 :: 0x34 :: [0, 0, 0]) =
          some (r2.ret, [] ++ [Event.i2c t1 r1, Event.i2c t2 r2])) ∧
      (0 ≤ r1.ret → 0 ≤ r2.ret →
        pca953x_write_regs okBus chip16B [] PCA957X_OUT (0x12 :: 0x34 :: [0, 0, 0]) =
          some (0, [] ++ [Event.i2c t1 r1, Event.i2c t2 r2]))) ∧
    pca953x_write_regs okBus chip16B [] PCA957X_OUT [0x12, 0x34, 0, 0, 0] =
      some (0, [Event.i2c (Txn.write_byte_data 10 0x12) ⟨0, []⟩,
                Event.i2c (Txn.write_byte_data 11 0x34) ⟨0, []⟩]) ∧
    pca953x_write_regs failBus chip16B [] PCA957X_OUT [0x12, 0x34, 0, 0, 0] =
      some (-5, [Event.i2c (Txn.write_byte_data 10 0x12) ⟨-5, []⟩]) :=
  ⟨⟨by decide, by decide, by decide⟩,
   write_regs_layoutB_two_writes okBus chip16B [] PCA957X_OUT 0x12 0x34 [0, 0, 0] (by decide)
     (by decide) (by decide),
   by decide, by decide⟩

/-! ## Claims C11 to C20 -/

/-- C11, refuted: on the 16-pin layout-B chip `chip16B`, a write whose first
byte is accepted and whose second byte fails with `-5` returns `-5`, and so
does a write whose first byte fails with `-5`: the caller receives the same
value in both cases, although one byte reached the device in the first. -/
theorem partial_write_same_return_value :
    pca953x_write_regs partialBus chip16B [] PCA957X_OUT [0x12, 0x34, 0, 0, 0] =
      some (-5, [Event.i2c (Txn.write_byte_data 10 0x12) ⟨0, []⟩,
                 Event.i2c (Txn.write_byte_data 11 0x34) ⟨-5, []⟩]) ∧
    pca953x_write_regs failBus chip16B [] PCA957X_OUT [0x12, 0x34, 0, 0, 0] =
      some (-5, [Event.i2c (Txn.write_byte_data 10 0x12) ⟨-5, []⟩]) ∧
    (pca953x_write_regs partialBus chip16B [] PCA957X_OUT [0x12, 0x34, 0, 0, 0]).map Prod.fst =
      (pca953x_write_regs failBus chip16B [] PCA957X_OUT [0x12, 0x34, 0, 0, 0]).map Prod.fst := by
  decide

/-- C11, amended: on a 16-pin layout-B chip, when the first byte write
succeeds and the second fails with the value `e`, `pca953x_write_regs`
returns `e` after two transactions; when the first byte write fails with the
same `e` it returns `e` after one transaction.  The returned value is the
same: no partial-write condition is reported, and the two cases differ only
in what was sent on the bus. -/
theorem partial_write_not_reported (bus1 bus2 : Bus) (chip : pca953x_chip)
    (log : List Event) (reg b0 b1 : Nat) (rest : List Nat) (e : Int)
    (h16 : chip.ngpio = 16) (hB : chip.chip_type = PCA957X_TYPE) (hreg : reg ≤ 7)
    (he : e < 0)
    (h1ok : 0 ≤ (bus1 log (Txn.write_byte_data (reg <<< 1) b0)).ret)
    (h1fail : (bus1 (log ++ [Event.i2c (Txn.write_byte_data (reg <<< 1) b0)
                (bus1 log (Txn.write_byte_data (reg <<< 1) b0))])
              (Txn.write_byte_data ((reg <<< 1) + 1) b1)).ret = e)
    (h2fail : (bus2 log (Txn.write_byte_data (reg <<< 1) b0)).ret = e) :
    ∃ (r1 r2 r3 : Reply),
      pca953x_write_regs bus1 chip log reg (b0 :: b1 :: rest) =
        some (e, log ++ [Event.i2c (Txn.write_byte_data (reg <<< 1) b0) r1,
                         Event.i2c (Txn.write_byte_data ((reg <<< 1) + 1) b1) r2]) ∧
      0 ≤ r1.ret ∧ r2.ret = e ∧
      pca953x_write_regs bus2 chip log reg (b0 :: b1 :: rest) =
        some (e, log ++ [Event.i2c (Txn.write_byte_data (reg <<< 1) b0) r3]) ∧
      r3.ret = e ∧
      (pca953x_write_regs bus1 chip log reg (b0 :: b1 :: rest)).map Prod.fst =
        (pca953x_write_regs bus2 chip log reg (b0 :: b1 :: rest)).map Prod.fst := by
  have hr0 : (reg <<< 1) % 256 = reg <<< 1 := by
    apply Nat.mod_eq_of_lt; rw [Nat.shiftLeft_eq]; omega
  have hr1 : ((reg <<< 1) + 1) % 256 = (reg <<< 1) + 1 := by
    apply Nat.mod_eq_of_lt; rw [Nat.shiftLeft_eq]; omega
  have hu1 := write_regs_two_bytes bus1 chip log reg (b0 :: b1 :: rest) b0 b1 (by omega)
    (by omega) hB (by simp) (by simp)
  have hu2 := write_regs_two_bytes bus2 chip log reg (b0 :: b1 :: rest) b0 b1 (by omega)
    (by omega) hB (by simp) (by simp)
  simp only [hr0, hr1] at hu1 hu2
  rw [if_neg (by omega), h1fail, if_pos he] at hu1
  rw [if_pos (by omega), h2fail] at hu2
  refine ⟨_, _, _, hu1, h1ok, h1fail, hu2, h2fail, ?_⟩
  rw [hu1, hu2]; rfl

/-- An instance: the output register of `chip16B`, on a bus that fails from the
second transaction on and on a bus that fails at once, both with `-5`. -/
theorem partial_write_not_reported_witness :
    (chip16B.ngpio = 16 ∧ chip16B.chip_type = PCA957X_TYPE ∧ PCA957X_OUT ≤ 7 ∧
      (-5 : Int) < 0 ∧
      0 ≤ (partialBus [] (Txn.write_byte_data (PCA957X_OUT <<< 1) 0x12)).ret ∧
      (partialBus ([] ++ [Event.i2c (Txn.write_byte_data (PCA957X_OUT <<< 1) 0x12)
                (partialBus [] (Txn.write_byte_data (PCA957X_OUT <<< 1) 0x12))])
              (Txn.write_byte_data ((PCA957X_OUT <<< 1) + 1) 0x34)).ret = -5 ∧
      (failBus [] (Txn.write_byte_data (PCA957X_OUT <<< 1) 0x12)).ret = -5) ∧
    ∃ (r1 r2 r3 : Reply),
      pca953x_write_regs partialBus chip16B [] PCA957X_OUT (0x12 :: 0x34 :: [0, 0, 0]) =
        some (-5, [] ++ [Event.i2c (Txn.write_byte_data (PCA957X_OUT <<< 1) 0x12) r1,
                         Event.i2c (Txn.write_byte_data ((PCA957X_OUT <<< 1) + 1) 0x34) r2]) ∧
      0 ≤ r1.ret ∧ r2.ret = -5 ∧
      pca953x_write_regs failBus chip16B [] PCA957X_OUT (0x12 :: 0x34 :: [0, 0, 0]) =
        some (-5, [] ++ [Event.i2c (Txn.write_byte_data (PCA957X_OUT <<< 1) 0x12) r3]) ∧
      r3.ret = -5 ∧
      (pca953x_write_regs partialBus chip16B [] PCA957X_OUT (0x12 :: 0x34 :: [0, 0, 0])).map
          Prod.fst =
        (pca953x_write_regs failBus chip16B [] PCA957X_OUT (0x12 :: 0x34 :: [0, 0, 0])).map
          Prod.fst :=
  ⟨⟨by decide, by decide, by decide, by decide, by decide, by decide, by decide⟩,
   partial_write_not_reported partialBus failBus chip16B [] PCA957X_OUT 0x12 0x34 [0, 0, 0] (-5)
     (by decide) (by decide) (by decide) (by decide) (by decide) (by decide) (by decide)⟩

/-- C12, evaluated: on the 8-pin chip `chip8`, whose direction shadow byte is
`0xFF`, with nothing written so far, `Direction_store` given `0` writes `0` to
the direction register (address 3), the write succeeds and `count` is
returned, and `reg_direction[0]` is still `0xFF`: the shadow no longer equals
the last value written.  The sibling `pca953x_gpio_set_value` does commit:
after it, `reg_output[0]` is the byte `0xF7` it wrote to address 1. -/
theorem direction_store_leaves_shadow_stale :
    last_written [] 3 = none ∧
    Direction_store okBus ⟨chip8, 0, 0, 0, []⟩ [0, 0, 0, 0, 0] (some 0) 2 =
      some (2, ⟨chip8, 0, 0, 0,
            [Event.i2c (Txn.write_byte_data 3 0) ⟨0, []⟩,
             Event.i2c (Txn.read_byte_data 3) ⟨0, []⟩]⟩) ∧
    last_written [Event.i2c (Txn.write_byte_data 3 0) ⟨0, []⟩,
                  Event.i2c (Txn.read_byte_data 3) ⟨0, []⟩] 3 = some 0 ∧
    chip8.reg_direction[0]? = some 0xFF ∧
    pca953x_gpio_set_value okBus chip8 [] 3 0 =
      some ({ chip8 with reg_output := [0xF7, 0, 0, 0, 0] },
            [Event.mutex_lock, Event.i2c (Txn.write_byte_data 1 0xF7) ⟨0, []⟩,
             Event.mutex_unlock]) ∧
    last_written [Event.mutex_lock, Event.i2c (Txn.write_byte_data 1 0xF7) ⟨0, []⟩,
                  Event.mutex_unlock] 1 = some 0xF7 := by
  decide

/-- C13, evaluated: `Direction_store` given `0xFF` on the 16-pin layout-A chip
`chip16A` issues one word write at address 6 whose word is `0x00FF`, so bank 0
of the direction register receives `0xFF` and bank 1 receives `0`.  On the
4-pin chip `chip4`, given `0xF0`, the byte written is the stack byte `7`, as
`memset` filled `NBANK = 0` bytes.  On the 8-pin layout-B chip `chip8B` the
write goes to address 3, which is `PCA957X_PUPD`, not `PCA957X_CFG`.  On the
40-pin chip `chip40` all five banks receive `0xF0`. -/
theorem direction_store_misses_banks :
    Direction_store okBus ⟨chip16A, 0, 0, 0, []⟩ [7, 7, 7, 7, 7] (some 0xFF) 2 =
      some (2, ⟨chip16A, 0xFF, 0, 0,
            [Event.i2c (Txn.write_word_data 6 0xFF) ⟨0, []⟩,
             Event.i2c (Txn.read_word_data 6) ⟨0, []⟩]⟩) ∧
    txn_writes (Txn.write_word_data 6 0xFF) = [(6, 0xFF), (7, 0)] ∧
    Direction_store okBus ⟨chip4, 0, 0, 0, []⟩ [7, 7, 7, 7, 7] (some 0xF0) 2 =
      some (2, ⟨chip4, 0xF0, 0, 0,
            [Event.i2c (Txn.write_byte_data 3 7) ⟨0, []⟩,
             Event.i2c (Txn.read_byte_data 3) ⟨0, []⟩]⟩) ∧
    Direction_store okBus ⟨chip8B, 0, 0, 0, []⟩ [7, 7, 7, 7, 7] (some 0xF0) 2 =
      some (2, ⟨chip8B, 0xF0, 0, 0,
            [Event.i2c (Txn.write_byte_data 3 0xF0) ⟨0, []⟩,
             Event.i2c (Txn.read_byte_data 3) ⟨0, []⟩]⟩) ∧
    (3 = PCA957X_PUPD ∧ 3 ≠ PCA957X_CFG) ∧
    Direction_store okBus ⟨chip40, 0, 0, 0, []⟩ [7, 7, 7, 7, 7] (some 0xF0) 2 =
      some (2, ⟨chip40, 0xF0, 0, 0,
            [Event.i2c (Txn.write_i2c_block_data 0x98 5 [0xF0, 0xF0, 0xF0, 0xF0, 0xF0]) ⟨0, []⟩,
             Event.i2c (Txn.read_i2c_block_data 0x98 5) ⟨0, []⟩]⟩) ∧
    txn_writes (Txn.write_i2c_block_data 0x98 5 [0xF0, 0xF0, 0xF0, 0xF0, 0xF0]) =
      [(24, 0xF0), (25, 0xF0), (26, 0xF0), (27, 0xF0), (28, 0xF0)] := by
  decide

/-- C14, evaluated: for the supported pin count 4 the macro `NBANK` gives
`4 / 8 = 0`, not `ceil(4 / 8) = 1`, so the `memset` of `Direction_store`
leaves the array as it was; for 8, 16, 24 and 40 pins `NBANK` equals
`ceil(pin_count / 8)`, and it is at most `MAX_BANK` for all five. -/
theorem nbank_zero_for_four_pins :
    supported chip4.ngpio ∧ NBANK chip4 = 0 ∧ bank_count chip4.ngpio = 1 ∧
    memset [7, 7, 7, 7, 7] 0xF0 (NBANK chip4) = some [7, 7, 7, 7, 7] ∧
    (NBANK chip8 = bank_count chip8.ngpio ∧ NBANK chip16A = bank_count chip16A.ngpio ∧
      NBANK ⟨24, PCA953X_TYPE, [0, 0, 0, 0, 0], [0, 0, 0, 0, 0]⟩ = bank_count 24 ∧
      NBANK chip40 = bank_count chip40.ngpio) ∧
    (NBANK chip4 ≤ MAX_BANK ∧ NBANK chip8 ≤ MAX_BANK ∧ NBANK chip16A ≤ MAX_BANK ∧
      NBANK ⟨24, PCA953X_TYPE, [0, 0, 0, 0, 0], [0, 0, 0, 0, 0]⟩ ≤ MAX_BANK ∧
      NBANK chip40 ≤ MAX_BANK) := by
  decide

theorem outcome_single (t : Txn) (r : Reply) :
    transfer_outcome (if r.ret < 0 then r.ret else 0) [Event.i2c t r] := by
  refine ⟨by simp [is_i2c], ?_⟩
  by_cases h : r.ret < 0
  · right
    rw [if_pos h]
    exact ⟨h, [], t, r, rfl, rfl, by simp⟩
  · left
    rw [if_neg h]
    exact ⟨rfl, by simp [i2c_failed, h]⟩

theorem outcome_two (t1 t2 : Txn) (r1 r2 : Reply) (h1 : ¬ r1.ret < 0) :
    transfer_outcome (if r2.ret < 0 then r2.ret else 0) [Event.i2c t1 r1, Event.i2c t2 r2] := by
  refine ⟨by simp [is_i2c], ?_⟩
  by_cases h : r2.ret < 0
  · right
    rw [if_pos h]
    exact ⟨h, [Event.i2c t1 r1], t2, r2, rfl, rfl, by simp [i2c_failed, h1]⟩
  · left
    rw [if_neg h]
    exact ⟨rfl, by simp [i2c_failed, h, h1]⟩

theorem replies_single (bus : Bus) (log : List Event) (t : Txn) :
    replies_from bus log [Event.i2c t (bus log t)] = true := by
  simp [replies_from]

theorem replies_two (bus : Bus) (log : List Event) (t1 t2 : Txn) :
    replies_from bus log
      [Event.i2c t1 (bus log t1),
       Event.i2c t2 (bus (log ++ [Event.i2c t1 (bus log t1)]) t2)] = true := by
  simp [replies_from]

/-- C15: on a chip with a supported pin count and layout A or B, with the
`MAX_BANK`-byte arrays the callers pass and a bus that keeps the block-read
contract, `pca953x_read_regs` issues one transport call and
`pca953x_write_regs` one or two; every event they append carries the reply
the bus gave to that call at that point of the trace (`replies_from`); and
each returns according to `transfer_outcome`: `0` when no call it issued
failed; otherwise the negative value of the call that failed, which is the
last call issued, so nothing is issued after a failure and no call is
repeated.  For `pca953x_read_regs` the returned value is written out: the
reply of the bus if that is negative, `0` if not. -/
theorem transfer_routines_report_transport (bus : Bus) (chip : pca953x_chip)
    (log : List Event) (reg : Nat) (val buf : List Nat) (hsup : supported chip.ngpio)
    (hlay : chip.chip_type = PCA953X_TYPE ∨ chip.chip_type = PCA957X_TYPE)
    (hval : val.length = MAX_BANK) (hbuf : buf.length = MAX_BANK) (hbus : block_read_ok bus) :
    (∃ (ret : Int) (out : List Nat) (evs : List Event) (t : Txn),
      pca953x_read_regs bus chip log reg buf = some (ret, out, log ++ evs) ∧
      evs = [Event.i2c t (bus log t)] ∧
      ret = (if (bus log t).ret < 0 then (bus log t).ret else 0) ∧
      evs.length = 1 ∧ replies_from bus log evs = true ∧ transfer_outcome ret evs) ∧
    (∃ (ret : Int) (evs : List Event),
      pca953x_write_regs bus chip log reg val = some (ret, log ++ evs) ∧
      1 ≤ evs.length ∧ evs.length ≤ 2 ∧ replies_from bus log evs = true ∧
      transfer_outcome ret evs) := by
  have hM : MAX_BANK = 5 := rfl
  have hn := supported_le _ hsup
  have hnb := nbank_le chip hn
  have hmod : NBANK chip % 256 ≤ NBANK chip := Nat.mod_le _ _
  have h0 : val[0]? = some val[0] := List.getElem?_eq_getElem (by omega)
  have h1 : val[1]? = some val[1] := List.getElem?_eq_getElem (by omega)
  constructor
  · by_cases h8 : chip.ngpio ≤ 8
    · exact ⟨_, _, _, _, read_regs_byte bus chip log reg buf h8 (by omega), rfl, rfl, rfl,
        replies_single _ _ _, outcome_single _ _⟩
    · by_cases h24 : chip.ngpio < 24
      · exact ⟨_, _, _, _, read_regs_word bus chip log reg buf (by omega) h24 (by omega),
          rfl, rfl, rfl, replies_single _ _ _, outcome_single _ _⟩
      · have hb := (hbus log (((reg <<< bank_shift chip.ngpio) ||| REG_ADDR_AI) % 256)
          (NBANK chip % 256)).1
        exact ⟨_, _, _, _, read_regs_block bus chip log reg buf (by omega) (by omega),
          rfl, rfl, rfl, replies_single _ _ _, outcome_single _ _⟩
  · by_cases h8 : chip.ngpio ≤ 8
    · exact ⟨_, _, write_regs_byte bus chip log reg val _ h8 h0, by simp, by simp,
        replies_single _ _ _, outcome_single _ _⟩
    · by_cases h24 : chip.ngpio < 24
      · rcases hlay with hA | hB
        · exact ⟨_, _, write_regs_word bus chip log reg val _ (by omega) h24 hA h0, by simp,
            by simp, replies_single _ _ _, outcome_single _ _⟩
        · have hu := write_regs_two_bytes bus chip log reg val _ _ (by omega) h24 hB h0 h1
          by_cases hf : (bus log (Txn.write_byte_data ((reg <<< 1) % 256) val[0])).ret < 0
          · rw [if_pos hf] at hu
            have ho := outcome_single (Txn.write_byte_data ((reg <<< 1) % 256) val[0])
              (bus log (Txn.write_byte_data ((reg <<< 1) % 256) val[0]))
            rw [if_pos hf] at ho
            exact ⟨_, _, hu, by simp, by simp, replies_single _ _ _, ho⟩
          · rw [if_neg hf] at hu
            exact ⟨_, _, hu, by simp, by simp, replies_two _ _ _ _,
              outcome_two _ _ _ _ hf⟩
      · exact ⟨_, _, write_regs_block bus chip log reg val (by omega) (by omega), by simp,
          by simp, replies_single _ _ _, outcome_single _ _⟩

/-- An instance: the output register of the layout-B chip `chip16B` on a bus
where every transaction fails. -/
theorem transfer_routines_report_transport_witness :
    (supported chip16B.ngpio ∧
      (chip16B.chip_type = PCA953X_TYPE ∨ chip16B.chip_type = PCA957X_TYPE) ∧
      [0x12, 0x34, 0, 0, 0].length = MAX_BANK ∧ [0, 0, 0, 0, 0].length = MAX_BANK ∧
      block_read_ok failBus) ∧
    ((∃ (ret : Int) (out : List Nat) (evs : List Event) (t : Txn),
      pca953x_read_regs failBus chip16B [] PCA957X_OUT [0, 0, 0, 0, 0] =
        some (ret, out, [] ++ evs) ∧
      evs = [Event.i2c t (failBus [] t)] ∧
      ret = (if (failBus [] t).ret < 0 then (failBus [] t).ret else 0) ∧
      evs.length = 1 ∧ replies_from failBus [] evs = true ∧ transfer_outcome ret evs) ∧
    (∃ (ret : Int) (evs : List Event),
      pca953x_write_regs failBus chip16B [] PCA957X_OUT [0x12, 0x34, 0, 0, 0] =
        some (ret, [] ++ evs) ∧
      1 ≤ evs.length ∧ evs.length ≤ 2 ∧ replies_from failBus [] evs = true ∧
      transfer_outcome ret evs)) ∧
    pca953x_read_regs failBus chip16B [] PCA957X_OUT [0, 0, 0, 0, 0] =
      some (-5, [0xFB, 0xFF, 0, 0, 0], [Event.i2c (Txn.read_word_data 10) ⟨-5, []⟩]) ∧
    pca953x_write_regs failBus chip16B [] PCA957X_OUT [0x12, 0x34, 0, 0, 0] =
      some (-5, [Event.i2c (Txn.write_byte_data 10 0x12) ⟨-5, []⟩]) ∧
    pca953x_write_regs partialBus chip16B [] PCA957X_OUT [0x12, 0x34, 0, 0, 0] =
      some (-5, [Event.i2c (Txn.write_byte_data 10 0x12) ⟨0, []⟩,
                 Event.i2c (Txn.write_byte_data 11 0x34) ⟨-5, []⟩]) :=
  ⟨⟨by decide, by decide, by decide, by decide, failBus_block_read_ok⟩,
   transfer_routines_report_transport failBus chip16B [] PCA957X_OUT [0x12, 0x34, 0, 0, 0]
     [0, 0, 0, 0, 0] (by decide) (by decide) (by decide) (by decide) failBus_block_read_ok,
   by decide, by decide, by decide⟩

/-- C16, evaluated: the trace of `Direction_store` on `chip8` is a write and a
read with no lock event, and the trace of `Output_store` has its read after
the unlock, so in both a transport event occurs while the lock is not held;
in the trace of `pca953x_gpio_set_value` the write is between lock and
unlock. -/
theorem store_transfers_outside_lock :
    (Direction_store okBus ⟨chip8, 0, 0, 0, []⟩ [0, 0, 0, 0, 0] (some 0) 2).map
        (fun r => r.2.log) =
      some [Event.i2c (Txn.write_byte_data 3 0) ⟨0, []⟩,
            Event.i2c (Txn.read_byte_data 3) ⟨0, []⟩] ∧
    i2c_under_lock false [Event.i2c (Txn.write_byte_data 3 0) ⟨0, []⟩,
                          Event.i2c (Txn.read_byte_data 3) ⟨0, []⟩] = false ∧
    (Output_store okBus ⟨chip8, 0, 0, 0, []⟩ [0, 0, 0, 0, 0] (some 3) 2).map
        (fun r => r.2.log) =
      some [Event.mutex_lock, Event.i2c (Txn.write_byte_data 1 0xFF) ⟨0, []⟩,
            Event.mutex_unlock, Event.i2c (Txn.read_byte_data 1) ⟨0, []⟩] ∧
    i2c_under_lock false [Event.mutex_lock, Event.i2c (Txn.write_byte_data 1 0xFF) ⟨0, []⟩,
                          Event.mutex_unlock, Event.i2c (Txn.read_byte_data 1) ⟨0, []⟩] = false ∧
    (Invert_Output_store okBus ⟨chip8, 0, 0, 0, []⟩ [0, 0, 0, 0, 0] (some 3) 2).map
        (fun r => i2c_under_lock false r.2.log) = some false ∧
    (pca953x_gpio_set_value okBus chip8 [] 3 1).map (fun r => i2c_under_lock false r.2) =
      some true := by
  decide

theorem lock_held_append (held : Bool) (l1 l2 : List Event) :
    lock_held held (l1 ++ l2) = lock_held (lock_held held l1) l2 := by
  induction l1 generalizing held with
  | nil => rfl
  | cons e es ih =>
    cases e <;> simp only [List.cons_append, lock_held] <;> exact ih _

/-- C18: for every chip, every pin index whose bank lies inside the shadow
array, every level and every bus, `pca953x_gpio_set_value` appends exactly
`mutex_lock`, one transport write, `mutex_unlock` to the trace, whatever the
reply to the write: the lock is taken once, as the first action, released
once, as the last action, the write happens while it is held, and it is not
held after the call. -/
theorem set_value_lock_discipline (bus : Bus) (chip : pca953x_chip) (log : List Event)
    (i : Nat) (v : Int) (hlen : chip.reg_output.length = MAX_BANK)
    (hb : i / BANK_SZ < MAX_BANK) :
    ∃ (chip' : pca953x_chip) (evs : List Event) (t : Txn),
      pca953x_gpio_set_value bus chip log i v = some (chip', log ++ evs) ∧
      evs = [Event.mutex_lock, Event.i2c t (bus (log ++ [Event.mutex_lock]) t),
             Event.mutex_unlock] ∧
      evs.head? = some Event.mutex_lock ∧
      evs.getLast? = some Event.mutex_unlock ∧
      evs.count Event.mutex_lock = 1 ∧
      evs.count Event.mutex_unlock = 1 ∧
      i2c_under_lock false evs = true ∧
      (∀ held : Bool, lock_held held (log ++ evs) = false) := by
  obtain ⟨cur, hcur⟩ := shadow_byte_exists _ _ hlen hb
  refine ⟨_, _, set_value_txn chip cur i v, set_value_unfold bus chip log i v cur hcur, rfl,
    rfl, rfl, ?_, ?_, rfl, ?_⟩
  · simp [List.count_cons]
  · simp [List.count_cons]
  · intro held
    rw [lock_held_append]
    rfl

/-- An instance: pin 3 of `chip8` on a bus where every transaction fails. -/
theorem set_value_lock_discipline_witness :
    (chip8.reg_output.length = MAX_BANK ∧ 3 / BANK_SZ < MAX_BANK) ∧
    ∃ (chip' : pca953x_chip) (evs : List Event) (t : Txn),
      pca953x_gpio_set_value failBus chip8 [] 3 1 = some (chip', [] ++ evs) ∧
      evs = [Event.mutex_lock, Event.i2c t (failBus ([] ++ [Event.mutex_lock]) t),
             Event.mutex_unlock] ∧
      evs.head? = some Event.mutex_lock ∧
      evs.getLast? = some Event.mutex_unlock ∧
      evs.count Event.mutex_lock = 1 ∧
      evs.count Event.mutex_unlock = 1 ∧
      i2c_under_lock false evs = true ∧
      (∀ held : Bool, lock_held held ([] ++ evs) = false) :=
  ⟨⟨by decide, by decide⟩,
   set_value_lock_discipline failBus chip8 [] 3 1 (by decide) (by decide)⟩

theorem write_single_log (bus : Bus) (chip : pca953x_chip) (log : List Event)
    (reg val off : Nat) :
    (pca953x_write_single bus chip log reg val off).2 =
      log ++ [Event.i2c
        (Txn.write_byte_data (((reg <<< bank_shift chip.ngpio) + off / BANK_SZ) % 256) (val % 256))
        (bus log (Txn.write_byte_data
          (((reg <<< bank_shift chip.ngpio) + off / BANK_SZ) % 256) (val % 256)))] := by
  simp only [pca953x_write_single, i2c_smbus]
  split_ifs <;> rfl

theorem bank_address_arith (n r1 r2 p1 p2 : Nat) (h40 : n ≤ 40)
    (hp1 : p1 < n) (hp2 : p2 < n)
    (heq : (r1 <<< bank_shift n) + p1 / 8 = (r2 <<< bank_shift n) + p2 / 8) :
    r1 = r2 ∧ p1 / 8 = p2 / 8 := by
  have hv := bank_shift_values n h40
  rw [hv] at heq
  simp only [Nat.shiftLeft_eq] at heq
  split_ifs at heq <;> norm_num at heq <;> omega

theorem bank_address_small (n r p : Nat) (h40 : n ≤ 40) (hr : r ≤ 7) (hp : p < n) :
    (r <<< bank_shift n) + p / 8 ≤ 60 := by
  have hv := bank_shift_values n h40
  rw [hv]
  simp only [Nat.shiftLeft_eq]
  split_ifs <;> norm_num <;> omega

/-- C19: for every pin count `n` from 1 to 40 (and for `n = 0`, where there
is no pin index), with `s = fls((n - 1) / 8)`, all
register numbers `r1, r2` and all pin indices `p1, p2 < n`,
`(r1 << s) + p1 / 8 = (r2 << s) + p2 / 8` implies `r1 = r2` and
`p1 / 8 = p2 / 8`.  So two calls of `pca953x_write_single` for registers in
`0..7` that address the same physical register are for the same logical
register and the same bank. -/
theorem bank_address_injective (n : Nat) (h40 : n ≤ 40) :
    (∀ r1 r2 p1 p2 : Nat, p1 < n → p2 < n →
      (r1 <<< bank_shift n) + p1 / 8 = (r2 <<< bank_shift n) + p2 / 8 →
      r1 = r2 ∧ p1 / 8 = p2 / 8) ∧
    (∀ (bus : Bus) (chip : pca953x_chip) (log : List Event) (r1 r2 v1 v2 p1 p2 : Nat)
       (c w1 w2 : Nat) (rep1 rep2 : Reply),
      chip.ngpio = n → r1 ≤ 7 → r2 ≤ 7 → p1 < n → p2 < n →
      (pca953x_write_single bus chip log r1 v1 p1).2 =
        log ++ [Event.i2c (Txn.write_byte_data c w1) rep1] →
      (pca953x_write_single bus chip log r2 v2 p2).2 =
        log ++ [Event.i2c (Txn.write_byte_data c w2) rep2] →
      r1 = r2 ∧ p1 / 8 = p2 / 8) := by
  constructor
  · intro r1 r2 p1 p2 hp1 hp2 heq
    exact bank_address_arith n r1 r2 p1 p2 h40 hp1 hp2 heq
  · intro bus chip log r1 r2 v1 v2 p1 p2 c w1 w2 rep1 rep2 hn hr1 hr2 hp1 hp2 e1 e2
    rw [write_single_log, hn] at e1 e2
    have hs1 := bank_address_small n r1 p1 h40 hr1 hp1
    have hs2 := bank_address_small n r2 p2 h40 hr2 hp2
    simp only [List.append_cancel_left_eq, List.cons.injEq, Event.i2c.injEq,
      Txn.write_byte_data.injEq, and_true] at e1 e2
    have c1 := e1.1.1
    have c2 := e2.1.1
    simp only [BANK_SZ] at c1 c2
    rw [Nat.mod_eq_of_lt (by omega)] at c1 c2
    exact bank_address_arith n r1 r2 p1 p2 h40 hp1 hp2 (by omega)

/-- An instance: 40 pins, bank shift 3; pin 37 of register 1 is at address
12. -/
theorem bank_address_injective_witness :
    (40 ≤ 40 ∧ (1 <<< bank_shift 40) + 37 / 8 = 12) ∧
    (∀ r1 r2 p1 p2 : Nat, p1 < 40 → p2 < 40 →
      (r1 <<< bank_shift 40) + p1 / 8 = (r2 <<< bank_shift 40) + p2 / 8 →
      r1 = r2 ∧ p1 / 8 = p2 / 8) ∧
    (∀ (bus : Bus) (chip : pca953x_chip) (log : List Event) (r1 r2 v1 v2 p1 p2 : Nat)
       (c w1 w2 : Nat) (rep1 rep2 : Reply),
      chip.ngpio = 40 → r1 ≤ 7 → r2 ≤ 7 → p1 < 40 → p2 < 40 →
      (pca953x_write_single bus chip log r1 v1 p1).2 =
        log ++ [Event.i2c (Txn.write_byte_data c w1) rep1] →
      (pca953x_write_single bus chip log r2 v2 p2).2 =
        log ++ [Event.i2c (Txn.write_byte_data c w2) rep2] →
      r1 = r2 ∧ p1 / 8 = p2 / 8) :=
  ⟨⟨by decide, by decide⟩, bank_address_injective 40 (by decide)⟩

theorem or_flag_small : ∀ x : Nat, x < 64 →
    (x ||| 0x80 = x + 0x80 ∧ (x ||| 0x80) &&& 0x7F = x) := by
  decide

/-- C20: for every pin count `n` from 1 to 40, every register number `r` in
`0..7` and every pin index `p < n`, the physical address
`(r << bank_shift) + p / 8` is below `0x80`; hence
`(r << bank_shift) | REG_ADDR_AI` equals `(r << bank_shift) + 0x80`, is at
most `0xFF`, so the `u8` address the block transfers of `pca953x_read_regs`
and `pca953x_write_regs` use is not truncated, and clearing bit 7 of it gives
the address at which `pca953x_write_single` writes bank 0 of that register. -/
theorem ai_flag_no_alias (n r p : Nat) (h40 : n ≤ 40) (hr : r ≤ 7) (hp : p < n) :
    (r <<< bank_shift n) + p / 8 < 0x80 ∧
    (r <<< bank_shift n) ||| REG_ADDR_AI = (r <<< bank_shift n) + 0x80 ∧
    (r <<< bank_shift n) ||| REG_ADDR_AI ≤ 0xFF ∧
    ((r <<< bank_shift n) ||| REG_ADDR_AI) % 256 = (r <<< bank_shift n) ||| REG_ADDR_AI ∧
    (∀ (bus : Bus) (chip : pca953x_chip) (log : List Event) (val : Nat),
      chip.ngpio = n →
      ∃ rep : Reply,
        (pca953x_write_single bus chip log r val 0).2 =
          log ++ [Event.i2c
            (Txn.write_byte_data (((r <<< bank_shift n) ||| REG_ADDR_AI) &&& 0x7F) (val % 256))
            rep]) := by
  have hs := bank_address_small n r p h40 hr hp
  have hs0 : r <<< bank_shift n < 64 := by omega
  obtain ⟨hor, hand⟩ := or_flag_small (r <<< bank_shift n) hs0
  have hAI : REG_ADDR_AI = 0x80 := rfl
  rw [hAI, hor]
  refine ⟨by omega, rfl, by omega, Nat.mod_eq_of_lt (by omega), ?_⟩
  intro bus chip log val hn
  have h0 : (r <<< bank_shift n + 0 / BANK_SZ) % 256 = r <<< bank_shift n := by
    simp only [BANK_SZ]
    omega
  have hw := write_single_log bus chip log r val 0
  rw [hn, h0] at hw
  rw [← hor, hand]
  exact ⟨_, hw⟩

/-- An instance: register 7 of a 40-pin chip, pin 39: address `56 + 4`, block
address `0xB8`. -/
theorem ai_flag_no_alias_witness :
    ((40 : Nat) ≤ 40 ∧ (7 : Nat) ≤ 7 ∧ (39 : Nat) < 40) ∧
    ((7 <<< bank_shift 40) + 39 / 8 < 0x80 ∧
    (7 <<< bank_shift 40) ||| REG_ADDR_AI = (7 <<< bank_shift 40) + 0x80 ∧
    (7 <<< bank_shift 40) ||| REG_ADDR_AI ≤ 0xFF ∧
    ((7 <<< bank_shift 40) ||| REG_ADDR_AI) % 256 = (7 <<< bank_shift 40) ||| REG_ADDR_AI ∧
    (∀ (bus : Bus) (chip : pca953x_chip) (log : List Event) (val : Nat),
      chip.ngpio = 40 →
      ∃ rep : Reply,
        (pca953x_write_single bus chip log 7 val 0).2 =
          log ++ [Event.i2c
            (Txn.write_byte_data (((7 <<< bank_shift 40) ||| REG_ADDR_AI) &&& 0x7F) (val % 256))
            rep])) ∧
    (7 <<< bank_shift 40) + 39 / 8 = 60 ∧ (7 <<< bank_shift 40) ||| REG_ADDR_AI = 0xB8 :=
  ⟨⟨by decide, by decide, by decide⟩, ai_flag_no_alias 40 7 39 (by decide) (by decide) (by decide),
   by decide, by decide⟩

end PCA953x
